import Mathlib

/-!
# chainbridge-core: poller, relayer core, chain adapter and deposit handlers

A shallow embedding of

* `chains/evm/listener/listener.go` (`EVMListener.ListenToEvents`),
* `relayer/relayer.go` (`Relayer.Start`, `Relayer.route`, `Relayer.addRelayedChain`),
* `chains/evm/chain.go` (`EVMChain.Write`),
* `chains/evm/listener/handlers.go` (the three deposit handlers).

Conventions of the embedding.

* `*big.Int` values are `Int` (arbitrary precision, compared by value); a nil
  `*big.Int` start block is `none`.  `uint8` / `uint64` values are `Nat`.
* A Go `error` is `Option String`; `none` is `nil`.
* Collaborators reached through interfaces (chain client, event handlers, block
  store, message processors, destination writers, executors) are functions on an
  arbitrary world state `σ`, threaded explicitly in call order, so they may be
  stateful and may answer differently on every call.
* Every call to a collaborator and every metric call is appended to a trace in
  program order; logging and tracing spans are not part of the trace.
* Pointers to messages are the messages themselves (never nil); what a callee writes
  into a message does not change which calls `route` makes and is not modelled.
* A callee may write to a `*big.Int` it is handed while the call lasts: an event
  handler returns the value it leaves in the start block, the metrics sink the value
  it leaves in `endBlock`.  No callee keeps a reference beyond the call.
* `go f(x)` is recorded as a launched task; the body of the task is a separate
  definition.
-/

/-- Go's `error` interface value; `none` is `nil`. -/
abbrev GoError := Option String

/-! ## `chains/evm/listener/listener.go` -/

/-- The low 64 bits of the magnitude of a `big.Int` (`low64(x.abs)`). -/
def low64 (x : Int) : Nat := x.natAbs % 2 ^ 64

/-- Method `(*big.Int).Int64`: the low 64 bits of the magnitude reinterpreted as `int64`,
negated (with wrap-around) when the number is negative. -/
def bigInt64 (x : Int) : Int :=
  let v : Int := if low64 x < 2 ^ 63 then (low64 x : Int) else (low64 x : Int) - 2 ^ 64
  if x < 0 then (if v = -(2 ^ 63) then v else -v) else v

/-- Calls made by one run of the poll loop, in program order, with the arguments as
they were when the call was made. -/
inductive ListenerEvent where
  | LatestBlock (result : Except String Int)
  | Sleep (blockRetryInterval : Nat)
  | TrackBlockDelta (domainID : Nat) (head current : Int)
  | HandleEvent (handler : Nat) (startBlock endBlock : Int) (err : GoError)
  | StoreBlock (block : Int) (domainID : Nat) (err : GoError)

/-- What `HandleEvent(ctx, startBlock, endBlock, msgChan)` leaves behind: the returned
error, the value of the `*big.Int` behind `startBlock` when the call returns (the
handler is handed the variable of the loop itself) and the world. -/
structure HandlerResult (σ : Type) where
  err : GoError
  startBlock : Int
  world : σ

/-- What `TrackBlockDelta(domainID, head, current)` leaves behind: the value of the
`*big.Int` behind `current` when the call returns (the sink is handed the `endBlock`
of the loop itself) and the world. `head` is not read again in the cycle. -/
structure MeterResult (σ : Type) where
  current : Int
  world : σ

/-- The struct `EVMListener`: the collaborators and the configuration. -/
structure EVMListener (σ : Type) where
  /-- The call `client.LatestBlock()` -/
  client : σ → Except String Int × σ
  /-- The calls `eventHandlers[i].HandleEvent(ctx, startBlock, endBlock, msgChan)` -/
  eventHandlers : List (Int → Int → σ → HandlerResult σ)
  /-- The call `metrics.TrackBlockDelta(domainID, head, current)` -/
  metrics : Nat → Int → Int → σ → MeterResult σ
  /-- The call `blockstore.StoreBlock(block, domainID)` -/
  blockstore : Int → Nat → σ → GoError × σ
  domainID : Nat
  blockRetryInterval : Nat
  blockConfirmations : Int
  blockInterval : Int

/-- What a poll cycle leaves behind: the calls it made, the start block of the next
cycle and the world. -/
structure CycleResult (σ : Type) where
  trace : List ListenerEvent
  startBlock : Option Int
  world : σ

/-- What the handler loop leaves behind: the calls it made, the value of the start
block and the world. -/
structure HandlersResult (σ : Type) where
  trace : List ListenerEvent
  startBlock : Int
  world : σ

/-- The loop `for _, handler := range l.eventHandlers` of `ListenToEvents`: each
handler is called with the start block of the loop and a fresh `endBlock - 1`; an
error is logged and the loop continues. `idx` is the position of the first handler of
`hs` in the list. -/
def runHandlers {σ : Type} (hs : List (Int → Int → σ → HandlerResult σ)) (idx : Nat)
    (startBlock endBlock : Int) (w : σ) : HandlersResult σ :=
  match hs with
  | [] => ⟨[], startBlock, w⟩
  | handler :: rest =>
    let r := handler startBlock (endBlock - 1) w
    let t := runHandlers rest (idx + 1) r.startBlock endBlock r.world
    ⟨ListenerEvent.HandleEvent idx startBlock (endBlock - 1) r.err :: t.trace,
      t.startBlock, t.world⟩

/-- One iteration of the `default:` branch of the loop of `ListenToEvents`. -/
def pollCycle {σ : Type} (l : EVMListener σ) (startBlock : Option Int) (w : σ) :
    CycleResult σ :=
  match l.client w with
  | (Except.error err, w1) =>
    ⟨[ListenerEvent.LatestBlock (Except.error err), ListenerEvent.Sleep l.blockRetryInterval],
      startBlock, w1⟩
  | (Except.ok head, w1) =>
    let start : Int :=
      match startBlock with
      | none => bigInt64 head
      | some s => s
    let endBlock : Int := start + l.blockInterval
    if head - endBlock < l.blockConfirmations then
      ⟨[ListenerEvent.LatestBlock (Except.ok head), ListenerEvent.Sleep l.blockRetryInterval],
        some start, w1⟩
    else
      let m := l.metrics l.domainID head endBlock w1
      let hr := runHandlers l.eventHandlers 0 start m.current m.world
      let sr := l.blockstore m.current l.domainID hr.world
      ⟨[ListenerEvent.LatestBlock (Except.ok head),
          ListenerEvent.TrackBlockDelta l.domainID head endBlock]
          ++ hr.trace ++ [ListenerEvent.StoreBlock m.current l.domainID sr.1],
        some (hr.startBlock + l.blockInterval), sr.2⟩

/-- The first `cycles` iterations of `ListenToEvents`. `ctxDone` is the test
`<-ctx.Done()` at the top of every iteration; once it fires the function returns. -/
def ListenToEvents {σ : Type} (l : EVMListener σ) (ctxDone : σ → Bool) :
    Nat → Option Int → σ → CycleResult σ
  | 0, startBlock, w => ⟨[], startBlock, w⟩
  | cycles + 1, startBlock, w =>
    if ctxDone w then ⟨[], startBlock, w⟩
    else
      let c := pollCycle l startBlock w
      let r := ListenToEvents l ctxDone cycles c.startBlock c.world
      ⟨c.trace ++ r.trace, r.startBlock, r.world⟩

/-- The `HandleEvent` calls of a trace: handler position and the two block arguments. -/
def handlerCalls : List ListenerEvent → List (Nat × Int × Int)
  | [] => []
  | ListenerEvent.HandleEvent i s e _ :: t => (i, s, e) :: handlerCalls t
  | _ :: t => handlerCalls t

/-- The `HandleEvent` entries of a trace. -/
def handlerEvents : List ListenerEvent → List ListenerEvent
  | [] => []
  | ListenerEvent.HandleEvent i s e err :: t =>
    ListenerEvent.HandleEvent i s e err :: handlerEvents t
  | _ :: t => handlerEvents t

/-- The block numbers passed to `StoreBlock` in a trace. -/
def storeCalls : List ListenerEvent → List Int
  | [] => []
  | ListenerEvent.StoreBlock b _ _ :: t => b :: storeCalls t
  | _ :: t => storeCalls t

/-- The head fetch succeeded with `head` and the confirmation margin is met for the
window starting at `s`. -/
def rangeSafe {σ : Type} (l : EVMListener σ) (s : Int) (w : σ) : Prop :=
  ∃ head : Int, (l.client w).1 = Except.ok head ∧
    head - (s + l.blockInterval) ≥ l.blockConfirmations

/-- The value of the start block and the world in which the handler after the
handlers `hs` runs, when `hs` were run one after the other from start block
`startBlock` and world `w`, each on `endBlock - 1` as end of range. -/
def handlerState {σ : Type} (hs : List (Int → Int → σ → HandlerResult σ))
    (startBlock endBlock : Int) (w : σ) : Int × σ :=
  hs.foldl
    (fun st handler =>
      ((handler st.1 (endBlock - 1) st.2).startBlock,
        (handler st.1 (endBlock - 1) st.2).world))
    (startBlock, w)

/-- What the metrics sink answers in the processed cycle that starts at `s` after the
head fetch returned `head` in world `w`. -/
def cycleMeter {σ : Type} (l : EVMListener σ) (s head : Int) (w : σ) : MeterResult σ :=
  l.metrics l.domainID head (s + l.blockInterval) (l.client w).2

/-- The start block and the world in which the `i`-th handler runs in that cycle. -/
def cycleHandlerState {σ : Type} (l : EVMListener σ) (s head : Int) (w : σ) (i : Nat) :
    Int × σ :=
  handlerState (l.eventHandlers.take i) s (cycleMeter l s head w).current
    (cycleMeter l s head w).world

/-- The `HandleEvent` calls expected of that cycle: one per registered handler, in
registration order; the `i`-th is the `i`-th registered handler applied to the start
block and the world left by the handlers before it, with `endBlock - 1` as end of
range, and carries the error that handler returned. -/
def cycleHandlerEvents {σ : Type} (l : EVMListener σ) (s head : Int) (w : σ) :
    List ListenerEvent :=
  List.ofFn (fun i : Fin l.eventHandlers.length =>
    ListenerEvent.HandleEvent i.val (cycleHandlerState l s head w i.val).1
      ((cycleMeter l s head w).current - 1)
      ((l.eventHandlers.get i) (cycleHandlerState l s head w i.val).1
        ((cycleMeter l s head w).current - 1) (cycleHandlerState l s head w i.val).2).err)

/-- The handler returns with the start block as it was handed to it. -/
def keepsStartBlock {σ : Type} (handler : Int → Int → σ → HandlerResult σ) : Prop :=
  ∀ (startBlock endBlock : Int) (w : σ), (handler startBlock endBlock w).startBlock = startBlock

/-- Neither the metrics sink nor an event handler writes to the `*big.Int` it is
handed. -/
def leavesBlocksAlone {σ : Type} (l : EVMListener σ) : Prop :=
  (∀ (d : Nat) (head current : Int) (w : σ), (l.metrics d head current w).current = current) ∧
    ∀ handler ∈ l.eventHandlers, keepsStartBlock handler

/-- The listener `l` with a block store that, besides doing what the one of `l` does,
keeps a record of the arguments of every `StoreBlock` call it receives. The other
collaborators are those of `l`. -/
def recordStores {σ : Type} (l : EVMListener σ) : EVMListener (σ × List (Int × Nat)) :=
  { client := fun w => ((l.client w.1).1, ((l.client w.1).2, w.2))
    eventHandlers := l.eventHandlers.map
      (fun handler s e w =>
        ⟨(handler s e w.1).err, (handler s e w.1).startBlock, ((handler s e w.1).world, w.2)⟩)
    metrics := fun d head current w =>
      ⟨(l.metrics d head current w.1).current, ((l.metrics d head current w.1).world, w.2)⟩
    blockstore := fun block d w =>
      ((l.blockstore block d w.1).1, ((l.blockstore block d w.1).2, w.2 ++ [(block, d)]))
    domainID := l.domainID
    blockRetryInterval := l.blockRetryInterval
    blockConfirmations := l.blockConfirmations
    blockInterval := l.blockInterval }

/-! ## `relayer/relayer.go` -/

/-- Modelled from the spec: the struct `message.Message` (package `relayer/message`
is not among the sources). Fields as in the data model: source and destination
domain, deposit nonce, resource identifier, type tag and payload blobs. -/
structure Message where
  Source : Nat
  Destination : Nat
  DepositNonce : Nat
  ResourceId : List Nat
  /-- The field `Type` of the source (a reserved word here) -/
  Type_ : String
  Payload : List (List Nat)
deriving DecidableEq, Repr

/-- The interface `RelayedChain` as `route` uses it: `DomainID()` and
`Write(ctx, messages)`. -/
structure RelayedChain (σ : Type) where
  DomainID : Nat
  Write : List Message → σ → GoError × σ

/-- The struct `Relayer`. The registry is a Go map from domain to chain: `none` is
the nil map, a key is present when the function answers `some`. -/
structure Relayer (σ : Type) where
  relayedChains : List (RelayedChain σ)
  registry : Option (Nat → Option (RelayedChain σ))
  messageProcessors : List (Message → σ → GoError × σ)

/-- Constructor `NewRelayer(chains, metrics, messageProcessors...)`: the registry is left nil. -/
def NewRelayer {σ : Type} (chains : List (RelayedChain σ))
    (messageProcessors : List (Message → σ → GoError × σ)) : Relayer σ :=
  { relayedChains := chains, registry := none, messageProcessors := messageProcessors }

/-- The two-valued map read `r.registry[d]`; reading a nil map finds nothing. -/
def Relayer.registryGet {σ : Type} (r : Relayer σ) (d : Nat) : Option (RelayedChain σ) :=
  match r.registry with
  | none => none
  | some m => m d

/-- Method `Relayer.addRelayedChain`: create the map when nil, then
`r.registry[c.DomainID()] = c`. -/
def addRelayedChain {σ : Type} (r : Relayer σ) (c : RelayedChain σ) : Relayer σ :=
  let registry : Nat → Option (RelayedChain σ) :=
    match r.registry with
    | none => fun _ => none
    | some m => m
  let domainID := c.DomainID
  { r with registry := some (fun d => if d = domainID then some c else registry d) }

/-- Calls made by `route`, in program order. -/
inductive RouteEvent where
  | TrackDepositMessage (m : Message)
  | Processor (idx : Nat) (m : Message) (err : GoError)
  | Write (domainID : Nat) (msgs : List Message) (err : GoError)
  | TrackExecutionError (m : Message)
  | TrackSuccessfulExecutionLatency (m : Message)
deriving DecidableEq, Repr

/-- How a call of `route` ended. -/
inductive RouteOutcome where
  /-- The read `msgs[0]` on an empty slice: run-time panic, index out of range -/
  | indexOutOfRange
  /-- No registry entry for the destination of the first message -/
  | noResolver
  /-- A message processor returned an error -/
  | vetoed
  /-- The call of `Write` on the destination chain returned an error -/
  | writeFailed
  /-- The call of `Write` on the destination chain returned nil -/
  | routed
deriving DecidableEq, Repr

structure RouteResult (σ : Type) where
  trace : List RouteEvent
  outcome : RouteOutcome
  world : σ

/-- The loop `for _, mp := range r.messageProcessors` for one message: stops at the
first processor that returns an error and reports that error. -/
def runProcessors {σ : Type} (mps : List (Message → σ → GoError × σ)) (idx : Nat)
    (m : Message) (w : σ) : List RouteEvent × GoError × σ :=
  match mps with
  | [] => ([], none, w)
  | mp :: rest =>
    let r := mp m w
    match r.1 with
    | some err => ([RouteEvent.Processor idx m (some err)], some err, r.2)
    | none =>
      let t := runProcessors rest (idx + 1) m r.2
      (RouteEvent.Processor idx m none :: t.1, t.2.1, t.2.2)

/-- The loop `for _, m := range msgs` of `route`: deposit metric, then the
processors; an error of a processor leaves the whole function (`return`). -/
def processMessages {σ : Type} (mps : List (Message → σ → GoError × σ)) :
    List Message → σ → List RouteEvent × GoError × σ
  | [], w => ([], none, w)
  | m :: ms, w =>
    let p := runProcessors mps 0 m w
    match p.2.1 with
    | some err => (RouteEvent.TrackDepositMessage m :: p.1, some err, p.2.2)
    | none =>
      let t := processMessages mps ms p.2.2
      (RouteEvent.TrackDepositMessage m :: p.1 ++ t.1, t.2.1, t.2.2)

/-- Method `Relayer.route`: the trace of its calls, how it ended and the world it
leaves. -/
def route {σ : Type} (r : Relayer σ) (msgs : List Message) (w : σ) : RouteResult σ :=
  match msgs with
  | [] => ⟨[], RouteOutcome.indexOutOfRange, w⟩
  | m0 :: _ =>
    match r.registryGet m0.Destination with
    | none => ⟨[], RouteOutcome.noResolver, w⟩
    | some destChain =>
      let p := processMessages r.messageProcessors msgs w
      match p.2.1 with
      | some _ => ⟨p.1, RouteOutcome.vetoed, p.2.2⟩
      | none =>
        let wr := destChain.Write msgs p.2.2
        match wr.1 with
        | some err =>
          ⟨p.1 ++ [RouteEvent.Write destChain.DomainID msgs (some err)]
              ++ msgs.map RouteEvent.TrackExecutionError,
            RouteOutcome.writeFailed, wr.2⟩
        | none =>
          ⟨p.1 ++ [RouteEvent.Write destChain.DomainID msgs none]
              ++ msgs.map RouteEvent.TrackSuccessfulExecutionLatency,
            RouteOutcome.routed, wr.2⟩

/-- What the `select` of the loop of `Start` yields in one iteration. -/
inductive StartEvent where
  /-- The branch `case m := <-messagesChannel` -/
  | recv (m : List Message)
  /-- The branch `case <-ctx.Done()` -/
  | ctxDone

/-- What `Start` has done: the relayer with its registry, the chains whose
`PollEvents` was launched (by domain) and the batches for which `go r.route(m)`
was launched, in order. -/
structure StartResult (σ : Type) where
  relayer : Relayer σ
  polling : List Nat
  routed : List (List Message)

/-- The first loop of `Start`: register every chain and launch its poll task. -/
def startChains {σ : Type} : Relayer σ → List (RelayedChain σ) → Relayer σ × List Nat
  | r, [] => (r, [])
  | r, c :: cs =>
    let t := startChains (addRelayedChain r c) cs
    (t.1, c.DomainID :: t.2)

/-- The second loop of `Start`: every received batch is handed to `go r.route(m)`;
cancellation returns. -/
def receiveLoop : List StartEvent → List (List Message)
  | [] => []
  | StartEvent.recv m :: rest => m :: receiveLoop rest
  | StartEvent.ctxDone :: _ => []

/-- Method `Relayer.Start` against the sequence of events its `select` observes. -/
def Start {σ : Type} (r : Relayer σ) (events : List StartEvent) : StartResult σ :=
  let s := startChains r r.relayedChains
  ⟨s.1, s.2, receiveLoop events⟩

/-- The `Write` calls of a trace: domain of the chain, batch and returned error. -/
def writeCalls : List RouteEvent → List (Nat × List Message × GoError)
  | [] => []
  | RouteEvent.Write d ms e :: t => (d, ms, e) :: writeCalls t
  | _ :: t => writeCalls t

/-- The processor calls of a trace: position, message and returned error. -/
def processorCalls : List RouteEvent → List (Nat × Message × GoError)
  | [] => []
  | RouteEvent.Processor i m e :: t => (i, m, e) :: processorCalls t
  | _ :: t => processorCalls t

/-- The messages for which `TrackDepositMessage` was recorded. -/
def depositMetrics : List RouteEvent → List Message
  | [] => []
  | RouteEvent.TrackDepositMessage m :: t => m :: depositMetrics t
  | _ :: t => depositMetrics t

/-- The messages for which `TrackExecutionError` was recorded. -/
def executionErrorMetrics : List RouteEvent → List Message
  | [] => []
  | RouteEvent.TrackExecutionError m :: t => m :: executionErrorMetrics t
  | _ :: t => executionErrorMetrics t

/-- The messages for which `TrackSuccessfulExecutionLatency` was recorded. -/
def successLatencyMetrics : List RouteEvent → List Message
  | [] => []
  | RouteEvent.TrackSuccessfulExecutionLatency m :: t => m :: successLatencyMetrics t
  | _ :: t => successLatencyMetrics t

/-- Some processor call of the trace returned an error. -/
def vetoObserved (trace : List RouteEvent) : Prop :=
  ∃ (i : Nat) (m : Message) (err : String), RouteEvent.Processor i m (some err) ∈ trace

/-- Processor `mp` rejects message `m` whatever the state of the world. -/
def alwaysVetoes {σ : Type} (mp : Message → σ → GoError × σ) (m : Message) : Prop :=
  ∀ w : σ, (mp m w).1 ≠ none

/-- Every processor of the pipeline returns nil for `m` whatever the state. -/
def neverVetoed {σ : Type} (mps : List (Message → σ → GoError × σ)) (m : Message) : Prop :=
  ∀ mp ∈ mps, ∀ w : σ, (mp m w).1 = none

/-- The property of routing one batch that "every message not vetoed by a processor
is delivered": every message of the batch for which all processors return nil is
contained in a batch passed to `Write`. -/
def deliversEveryUnvetoed {σ : Type} (r : Relayer σ) (msgs : List Message) (w : σ) : Prop :=
  ∀ m ∈ msgs, neverVetoed r.messageProcessors m →
    ∃ call ∈ writeCalls (route r msgs w).trace, m ∈ call.2.1

/-- Executable form of `vetoObserved`. -/
def hasVeto : List RouteEvent → Bool
  | [] => false
  | RouteEvent.Processor _ _ (some _) :: _ => true
  | _ :: t => hasVeto t

/-! ## `chains/evm/chain.go` -/

/-- The struct `EVMChain` as `Write` and `DomainID` use it. `writer` is
`ProposalExecutor.Execute(ctx, message)`. -/
structure EVMChain (σ : Type) where
  writer : Message → σ → GoError × σ
  domainID : Nat

/-- What one goroutine of `Write` does: the `Execute` calls it makes, whether it
logged a failure, and the world afterwards. -/
structure TaskResult (σ : Type) where
  executed : List Message
  failureLogged : Bool
  world : σ

/-- The body of the goroutine launched by `Write` for `msg`:
`err := c.writer.Execute(ctx, msg)`, logged when not nil. -/
def EVMChain.writeTask {σ : Type} (c : EVMChain σ) (msg : Message) (w : σ) : TaskResult σ :=
  let r := c.writer msg w
  match r.1 with
  | some _ => ⟨[msg], true, r.2⟩
  | none => ⟨[msg], false, r.2⟩

/-- A launched goroutine `go func(msg *message.Message) ... (msg)`: the argument it
was started with and its body. -/
structure Goroutine (σ : Type) where
  msg : Message
  body : σ → TaskResult σ

/-- Result of `EVMChain.Write`: the returned error and the goroutines launched, in
launch order. -/
structure WriteResult (σ : Type) where
  err : GoError
  launched : List (Goroutine σ)

/-- Method `EVMChain.Write`: one `go func(msg) ...` per element of the batch, then
`return nil`. -/
def EVMChain.Write {σ : Type} (c : EVMChain σ) (msg : List Message) : WriteResult σ :=
  ⟨none, msg.foldl (fun launched m => launched ++ [⟨m, c.writeTask m⟩]) []⟩

/-- Method `EVMChain.DomainID`. -/
def EVMChain.DomainID {σ : Type} (c : EVMChain σ) : Nat := c.domainID

/-- An `EVMChain` seen through the interface `RelayedChain`. `spawn` is the Go
scheduler: it takes the goroutines launched by `Write` into the world (it may queue
them, or run some or all of them at once). -/
def EVMChain.asRelayedChain {σ : Type} (c : EVMChain σ)
    (spawn : List (Goroutine σ) → σ → σ) : RelayedChain σ :=
  { DomainID := c.DomainID
    Write := fun msgs w => ((c.Write msgs).err, spawn (c.Write msgs).launched w) }

/-! ## `chains/evm/listener/handlers.go` -/

/-- The struct `evm.DefaultEVMMessage` as the handlers fill it. -/
structure DefaultEVMMessage where
  Source : Nat
  Destination : Nat
  /-- The field `Type` of the source (a reserved word here) -/
  Type_ : String
  DepositNonce : Nat
  ResourceId : List Nat
  Payload : List (List Nat)
deriving DecidableEq, Repr

/-- The type tags of package `evm` that the handlers name; their values are declared
outside the sources and are taken as parameters. -/
structure TransferTypes where
  FungibleTransfer : String
  NonFungibleTransfer : String

/-- Deposit record of the ERC20 handler contract. -/
structure ERC20DepositRecord where
  ResourceID : List Nat
  Amount : Int
  DestinationRecipientAddress : List Nat

/-- Deposit record of the ERC721 handler contract. -/
structure ERC721DepositRecord where
  ResourceID : List Nat
  TokenID : Int
  DestinationRecipientAddress : List Nat
  MetaData : List Nat

/-- Deposit record of the generic handler contract. -/
structure GenericDepositRecord where
  ResourceID : List Nat
  MetaData : List Nat

/-- Method `(*big.Int).Bytes`: the magnitude as big-endian bytes, empty for zero. -/
def bigBytes (x : Int) : List Nat := (Nat.digits 256 x.natAbs).reverse

/-- A contract caller: `GetDepositRecord(opts, nonce, destId)`. -/
abbrev DepositRecordCaller (ρ : Type) := Nat → Nat → Except String ρ

/-- Function `HandleErc20DepositedEvent`. `newCaller` is
`erc20Handler.NewERC20HandlerCaller(common.HexToAddress(addr), backend)`. -/
def HandleErc20DepositedEvent (evm : TransferTypes)
    (newCaller : String → Except String (DepositRecordCaller ERC20DepositRecord))
    (sourceID destId nonce : Nat) (handlerContractAddress : String) :
    Except String DefaultEVMMessage :=
  match newCaller handlerContractAddress with
  | Except.error err => Except.error err
  | Except.ok contract =>
    match contract nonce destId with
    | Except.error err => Except.error err
    | Except.ok record =>
      Except.ok
        { Source := sourceID
          Destination := destId
          Type_ := evm.FungibleTransfer
          DepositNonce := nonce
          ResourceId := record.ResourceID
          Payload := [bigBytes record.Amount, record.DestinationRecipientAddress] }

/-- Function `HandleErc721DepositedEvent`; `newCaller` is
`erc721Handler.NewERC721HandlerCaller(common.HexToAddress(addr), backend)`. -/
def HandleErc721DepositedEvent (evm : TransferTypes)
    (newCaller : String → Except String (DepositRecordCaller ERC721DepositRecord))
    (sourceID destId nonce : Nat) (handlerContractAddress : String) :
    Except String DefaultEVMMessage :=
  match newCaller handlerContractAddress with
  | Except.error err => Except.error err
  | Except.ok contract =>
    match contract nonce destId with
    | Except.error err => Except.error err
    | Except.ok record =>
      Except.ok
        { Source := sourceID
          Destination := destId
          Type_ := evm.NonFungibleTransfer
          DepositNonce := nonce
          ResourceId := record.ResourceID
          Payload := [bigBytes record.TokenID, record.DestinationRecipientAddress,
            record.MetaData] }

/-- Function `HandleGenericDepositedEvent`; `newCaller` is
`genericHandler.NewGenericHandlerCaller(common.HexToAddress(addr), backend)`. -/
def HandleGenericDepositedEvent (evm : TransferTypes)
    (newCaller : String → Except String (DepositRecordCaller GenericDepositRecord))
    (sourceID destId nonce : Nat) (handlerContractAddress : String) :
    Except String DefaultEVMMessage :=
  match newCaller handlerContractAddress with
  | Except.error err => Except.error err
  | Except.ok contract =>
    match contract nonce destId with
    | Except.error err => Except.error err
    | Except.ok record =>
      Except.ok
        { Source := sourceID
          Destination := destId
          Type_ := evm.FungibleTransfer
          DepositNonce := nonce
          ResourceId := record.ResourceID
          Payload := [record.MetaData] }

/-! ## Concrete scenarios -/

/-- A listener for domain 1 with `blockInterval = 10`, `blockConfirmations = 5` and
three handlers of which the second fails on every call; `StoreBlock` fails on every
call as well. The world is the record the collaborators keep of what they received:
each handler, the metrics sink and the block store append their own arguments. With
`overwrite = some v` the first handler writes `v` into the start block it is handed;
with `meterOverwrite = some v` the metrics sink writes `v` into the `endBlock` it is
handed; with `none` and `none` nobody writes to a block number. -/
def recordingListener (latest : Except String Int) (overwrite meterOverwrite : Option Int) :
    EVMListener (List ListenerEvent) :=
  { client := fun w => (latest, w)
    eventHandlers :=
      [fun s e w =>
          ⟨none, (match overwrite with | some v => v | none => s),
            w ++ [ListenerEvent.HandleEvent 0 s e none]⟩,
       fun s e w =>
          ⟨some "handler failed", s,
            w ++ [ListenerEvent.HandleEvent 1 s e (some "handler failed")]⟩,
       fun s e w => ⟨none, s, w ++ [ListenerEvent.HandleEvent 2 s e none]⟩]
    metrics := fun d head current w =>
      ⟨(match meterOverwrite with | some v => v | none => current),
        w ++ [ListenerEvent.TrackBlockDelta d head current]⟩
    blockstore := fun block d w =>
      (some "store failed", w ++ [ListenerEvent.StoreBlock block d (some "store failed")])
    domainID := 1
    blockRetryInterval := 3
    blockConfirmations := 5
    blockInterval := 10 }

/-- The recording listener in which nobody writes to a block number. -/
def scenarioListener (latest : Except String Int) : EVMListener (List ListenerEvent) :=
  recordingListener latest none none

/-- The recording listener at head 600 whose first handler overwrites the start block
with 500. -/
def overwritingListener : EVMListener (List ListenerEvent) :=
  recordingListener (Except.ok 600) (some 500) none

/-- The recording listener at head 600 whose metrics sink overwrites `endBlock` with
777. -/
def meterOverwritingListener : EVMListener (List ListenerEvent) :=
  recordingListener (Except.ok 600) none (some 777)

/-- A message from domain 1 to domain 2 with deposit nonce 1. -/
def msgA : Message :=
  { Source := 1, Destination := 2, DepositNonce := 1, ResourceId := [0],
    Type_ := "FungibleTransfer", Payload := [[100], [171]] }

/-- A message from domain 1 to domain 2 with deposit nonce 7. -/
def msgB : Message :=
  { Source := 1, Destination := 2, DepositNonce := 7, ResourceId := [0],
    Type_ := "FungibleTransfer", Payload := [[5], [205]] }

/-- A message from domain 1 to domain 3, which no scenario registers. -/
def msgC : Message :=
  { Source := 1, Destination := 3, DepositNonce := 2, ResourceId := [0],
    Type_ := "FungibleTransfer", Payload := [[9], [18]] }

/-- A processor that accepts every message. -/
def acceptAll : Message → Nat → GoError × Nat := fun _ w => (none, w + 1)

/-- A processor that rejects exactly the messages with deposit nonce 7. -/
def rejectNonce7 : Message → Nat → GoError × Nat :=
  fun m w => (if m.DepositNonce = 7 then some "nonce 7 rejected" else none, w + 1)

/-- A destination chain for domain `d` whose `Write` always returns `writeErr`. -/
def scenarioChain (d : Nat) (writeErr : GoError) : RelayedChain Nat :=
  { DomainID := d, Write := fun _ w => (writeErr, w + 1) }

/-- A relayer started with chains for the domains 1 and 2 and the given processors;
`writeErr` is what the chain of domain 2 answers to `Write`. -/
def scenarioRelayer (processors : List (Message → Nat → GoError × Nat))
    (writeErr : GoError) : Relayer Nat :=
  (Start (NewRelayer [scenarioChain 1 none, scenarioChain 2 writeErr] processors) []).relayer

/-- A destination chain for domain `d` whose `Write` returns nil and keeps a record
of the batches it receives: the world is that record. -/
def recordingChain (d : Nat) : RelayedChain (List (List Message)) :=
  { DomainID := d, Write := fun msgs w => (none, w ++ [msgs]) }

/-- A processor over the record of written batches that accepts every message. -/
def passAll : Message → List (List Message) → GoError × List (List Message) :=
  fun _ w => (none, w)

/-- A processor over the record of written batches that rejects exactly the messages
with deposit nonce 7. -/
def blockNonce7 : Message → List (List Message) → GoError × List (List Message) :=
  fun m w => (if m.DepositNonce = 7 then some "nonce 7 rejected" else none, w)

/-- A relayer started with recording chains for the domains 1 and 2 and the given
processors. -/
def recordingRelayer
    (processors : List (Message → List (List Message) → GoError × List (List Message))) :
    Relayer (List (List Message)) :=
  (Start (NewRelayer [recordingChain 1, recordingChain 2] processors) []).relayer

/-- An EVM chain for domain 2 whose executor fails on every message. The world is
the list of messages whose delivery failure has been logged. -/
def failingEVMChain : EVMChain (List Message) :=
  { writer := fun _ w => (some "execution reverted", w), domainID := 2 }

/-- The scheduler of the scenario: every launched goroutine runs at once, in launch
order, and a logged failure is appended to the world. -/
def runAndLog (launched : List (Goroutine (List Message))) (w : List Message) :
    List Message :=
  launched.foldl
    (fun w g => if (g.body w).failureLogged then (g.body w).world ++ (g.body w).executed
      else (g.body w).world) w

/-- A relayer started with `failingEVMChain` as its only chain, no processors. -/
def scenarioEVMRelayer : Relayer (List Message) :=
  (Start (NewRelayer [failingEVMChain.asRelayedChain runAndLog] []) []).relayer

/-- The type tags of the scenario. -/
def scenarioTypes : TransferTypes :=
  { FungibleTransfer := "FungibleTransfer", NonFungibleTransfer := "NonFungibleTransfer" }

/-- An ERC20 handler contract whose record lookup succeeds: amount 1000 for the
recipient `[170]`. -/
def scenarioErc20Caller : String → Except String (DepositRecordCaller ERC20DepositRecord) :=
  fun _ => Except.ok (fun _ _ =>
    Except.ok { ResourceID := [1], Amount := 1000, DestinationRecipientAddress := [170] })

/-- A generic handler contract whose record lookup succeeds with metadata
`[222, 173]`. -/
def scenarioGenericCaller :
    String → Except String (DepositRecordCaller GenericDepositRecord) :=
  fun _ => Except.ok (fun _ _ => Except.ok { ResourceID := [2], MetaData := [222, 173] })

/-- The message expected from the ERC20 handler in the scenario; 1000 is the bytes
`[3, 232]`. -/
def scenarioErc20Message : DefaultEVMMessage :=
  { Source := 1, Destination := 2, Type_ := "FungibleTransfer", DepositNonce := 5,
    ResourceId := [1], Payload := [[3, 232], [170]] }

/-- The message returned by the generic handler in the scenario. -/
def scenarioGenericMessage : DefaultEVMMessage :=
  { Source := 1, Destination := 2, Type_ := "FungibleTransfer", DepositNonce := 5,
    ResourceId := [2], Payload := [[222, 173]] }

/-! ### Lemmas on traces -/

theorem handlerCalls_append (a b : List ListenerEvent) :
    handlerCalls (a ++ b) = handlerCalls a ++ handlerCalls b := by
  induction a with
  | nil => rfl
  | cons x t ih => cases x <;> simp [handlerCalls, ih]

theorem storeCalls_append (a b : List ListenerEvent) :
    storeCalls (a ++ b) = storeCalls a ++ storeCalls b := by
  induction a with
  | nil => rfl
  | cons x t ih => cases x <;> simp [storeCalls, ih]

theorem handlerEvents_append (a b : List ListenerEvent) :
    handlerEvents (a ++ b) = handlerEvents a ++ handlerEvents b := by
  induction a with
  | nil => rfl
  | cons x t ih => cases x <;> simp [handlerEvents, ih]

/-! ### The handler loop -/

theorem handlerState_cons {σ : Type} (h : Int → Int → σ → HandlerResult σ)
    (hs : List (Int → Int → σ → HandlerResult σ)) (s e : Int) (w : σ) :
    handlerState (h :: hs) s e w
      = handlerState hs (h s (e - 1) w).startBlock e (h s (e - 1) w).world := rfl

/-- The handler loop ends in the state that running the handlers one after the other
gives. -/
theorem runHandlers_state {σ : Type} (hs : List (Int → Int → σ → HandlerResult σ))
    (idx : Nat) (s e : Int) (w : σ) :
    (runHandlers hs idx s e w).startBlock = (handlerState hs s e w).1 ∧
      (runHandlers hs idx s e w).world = (handlerState hs s e w).2 := by
  induction hs generalizing idx s w with
  | nil => exact ⟨rfl, rfl⟩
  | cons h t ih =>
    rw [handlerState_cons]
    exact ih (idx + 1) (h s (e - 1) w).startBlock (h s (e - 1) w).world

/-- The handler loop, spelled out: the entry at position `i` is the call of the `i`-th
registered handler, on the start block and in the world left by the handlers before
it, with the error it returned. -/
theorem runHandlers_eq_ofFn {σ : Type} (hs : List (Int → Int → σ → HandlerResult σ))
    (idx : Nat) (s e : Int) (w : σ) :
    (runHandlers hs idx s e w).trace
      = List.ofFn (fun i : Fin hs.length =>
          ListenerEvent.HandleEvent (idx + i.val) (handlerState (hs.take i.val) s e w).1
            (e - 1)
            ((hs.get i) (handlerState (hs.take i.val) s e w).1 (e - 1)
              (handlerState (hs.take i.val) s e w).2).err) := by
  induction hs generalizing idx s w with
  | nil => rfl
  | cons h t ih =>
    simp only [runHandlers, List.length_cons, List.ofFn_succ, ih]
    simp [handlerState, Nat.add_assoc, Nat.add_comm 1]

theorem handlerState_keeps {σ : Type} (hs : List (Int → Int → σ → HandlerResult σ))
    (hk : ∀ h ∈ hs, keepsStartBlock h) (s e : Int) (w : σ) :
    (handlerState hs s e w).1 = s := by
  induction hs generalizing w with
  | nil => rfl
  | cons h t ih =>
    rw [handlerState_cons, hk h (List.mem_cons_self _ _) s (e - 1) w]
    exact ih (fun h' hh' => hk h' (List.mem_cons_of_mem _ hh')) _

theorem handlerCalls_runHandlers_keeps {σ : Type}
    (hs : List (Int → Int → σ → HandlerResult σ)) (hk : ∀ h ∈ hs, keepsStartBlock h)
    (idx : Nat) (s e : Int) (w : σ) :
    handlerCalls (runHandlers hs idx s e w).trace
      = (List.range hs.length).map (fun i => (idx + i, s, e - 1)) := by
  induction hs generalizing idx w with
  | nil => rfl
  | cons h t ih =>
    have ht : ∀ h' ∈ t, keepsStartBlock h' := fun h' hh' => hk h' (List.mem_cons_of_mem _ hh')
    simp only [runHandlers, handlerCalls, List.length_cons, List.range_succ_eq_map,
      List.map_cons, List.map_map]
    rw [hk h (List.mem_cons_self _ _) s (e - 1) w, ih ht]
    simp only [Nat.add_zero, List.cons.injEq, true_and]
    apply List.map_congr_left
    intro i _
    simp [Nat.add_assoc, Nat.add_comm 1 i]

theorem storeCalls_runHandlers {σ : Type} (hs : List (Int → Int → σ → HandlerResult σ))
    (idx : Nat) (s e : Int) (w : σ) :
    storeCalls (runHandlers hs idx s e w).trace = [] := by
  induction hs generalizing idx s w with
  | nil => rfl
  | cons h t ih => simp [runHandlers, storeCalls, ih]

theorem handlerEvents_runHandlers {σ : Type} (hs : List (Int → Int → σ → HandlerResult σ))
    (idx : Nat) (s e : Int) (w : σ) :
    handlerEvents (runHandlers hs idx s e w).trace = (runHandlers hs idx s e w).trace := by
  induction hs generalizing idx s w with
  | nil => rfl
  | cons h t ih => simp [runHandlers, handlerEvents, ih]

/-! ### One poll cycle -/

theorem pollCycle_error {σ : Type} (l : EVMListener σ) (startBlock : Option Int)
    (w w1 : σ) (err : String) (hc : l.client w = (Except.error err, w1)) :
    pollCycle l startBlock w
      = ⟨[ListenerEvent.LatestBlock (Except.error err),
            ListenerEvent.Sleep l.blockRetryInterval], startBlock, w1⟩ := by
  simp only [pollCycle, hc]

theorem pollCycle_wait {σ : Type} (l : EVMListener σ) (s : Int) (w w1 : σ) (head : Int)
    (hc : l.client w = (Except.ok head, w1))
    (hlt : head - (s + l.blockInterval) < l.blockConfirmations) :
    pollCycle l (some s) w
      = ⟨[ListenerEvent.LatestBlock (Except.ok head),
            ListenerEvent.Sleep l.blockRetryInterval], some s, w1⟩ := by
  simp only [pollCycle, hc, if_pos hlt]

theorem pollCycle_process {σ : Type} (l : EVMListener σ) (s : Int) (w w1 : σ) (head : Int)
    (hc : l.client w = (Except.ok head, w1))
    (hge : ¬ head - (s + l.blockInterval) < l.blockConfirmations) :
    pollCycle l (some s) w
      = ⟨[ListenerEvent.LatestBlock (Except.ok head),
            ListenerEvent.TrackBlockDelta l.domainID head (s + l.blockInterval)]
          ++ (runHandlers l.eventHandlers 0 s
                (l.metrics l.domainID head (s + l.blockInterval) w1).current
                (l.metrics l.domainID head (s + l.blockInterval) w1).world).trace
          ++ [ListenerEvent.StoreBlock
                (l.metrics l.domainID head (s + l.blockInterval) w1).current l.domainID
                (l.blockstore (l.metrics l.domainID head (s + l.blockInterval) w1).current
                  l.domainID
                  (runHandlers l.eventHandlers 0 s
                    (l.metrics l.domainID head (s + l.blockInterval) w1).current
                    (l.metrics l.domainID head (s + l.blockInterval) w1).world).world).1],
          some ((runHandlers l.eventHandlers 0 s
                (l.metrics l.domainID head (s + l.blockInterval) w1).current
                (l.metrics l.domainID head (s + l.blockInterval) w1).world).startBlock
              + l.blockInterval),
          (l.blockstore (l.metrics l.domainID head (s + l.blockInterval) w1).current
            l.domainID
            (runHandlers l.eventHandlers 0 s
              (l.metrics l.domainID head (s + l.blockInterval) w1).current
              (l.metrics l.domainID head (s + l.blockInterval) w1).world).world).2⟩ := by
  simp only [pollCycle, hc, if_neg hge]

theorem rangeSafe_ok {σ : Type} (l : EVMListener σ) (s : Int) (w w1 : σ) (head : Int)
    (hc : l.client w = (Except.ok head, w1)) :
    rangeSafe l s w ↔ ¬ (head - (s + l.blockInterval) < l.blockConfirmations) := by
  unfold rangeSafe
  rw [hc]
  constructor
  · rintro ⟨h, hh, hge⟩
    cases hh
    exact not_lt.mpr hge
  · intro hn
    exact ⟨head, rfl, not_lt.mp hn⟩

theorem rangeSafe_error {σ : Type} (l : EVMListener σ) (s : Int) (w w1 : σ) (err : String)
    (hc : l.client w = (Except.error err, w1)) : ¬ rangeSafe l s w := by
  unfold rangeSafe
  rw [hc]
  rintro ⟨h, hh, _⟩
  cases hh

theorem cycleHandlerEvents_eq {σ : Type} (l : EVMListener σ) (s head : Int) (w : σ) :
    cycleHandlerEvents l s head w
      = (runHandlers l.eventHandlers 0 s (cycleMeter l s head w).current
          (cycleMeter l s head w).world).trace := by
  rw [runHandlers_eq_ofFn]
  simp [cycleHandlerEvents, cycleHandlerState]

theorem cycleHandlerState_length {σ : Type} (l : EVMListener σ) (s head : Int) (w : σ) :
    cycleHandlerState l s head w l.eventHandlers.length
      = handlerState l.eventHandlers s (cycleMeter l s head w).current
          (cycleMeter l s head w).world := by
  simp [cycleHandlerState]

/-- A cycle whose window is confirmed, spelled out: the head fetch, the metric, one
call per handler, then the block store applied to the `endBlock` of the loop in the
world the handlers left, and the start block advanced from the value the handlers
left. -/
theorem pollCycle_confirmed {σ : Type} (l : EVMListener σ) (s : Int) (w : σ) (head : Int)
    (hh : (l.client w).1 = Except.ok head)
    (hge : head - (s + l.blockInterval) ≥ l.blockConfirmations) :
    (pollCycle l (some s) w).trace
        = [ListenerEvent.LatestBlock (Except.ok head),
            ListenerEvent.TrackBlockDelta l.domainID head (s + l.blockInterval)]
          ++ cycleHandlerEvents l s head w
          ++ [ListenerEvent.StoreBlock (cycleMeter l s head w).current l.domainID
                (l.blockstore (cycleMeter l s head w).current l.domainID
                  (cycleHandlerState l s head w l.eventHandlers.length).2).1] ∧
      (pollCycle l (some s) w).world
        = (l.blockstore (cycleMeter l s head w).current l.domainID
            (cycleHandlerState l s head w l.eventHandlers.length).2).2 ∧
      (pollCycle l (some s) w).startBlock
        = some ((cycleHandlerState l s head w l.eventHandlers.length).1 + l.blockInterval) := by
  rcases hc : l.client w with ⟨res, w1⟩
  rw [hc] at hh
  simp only at hh
  subst hh
  have hw1 : (l.client w).2 = w1 := by rw [hc]
  rw [pollCycle_process l s w w1 head hc (not_lt.mpr hge), cycleHandlerEvents_eq,
    cycleHandlerState_length]
  simp only [cycleMeter, hw1]
  obtain ⟨h1, h2⟩ := runHandlers_state l.eventHandlers 0 s
    (l.metrics l.domainID head (s + l.blockInterval) w1).current
    (l.metrics l.domainID head (s + l.blockInterval) w1).world
  rw [h1, h2]
  exact ⟨rfl, rfl, rfl⟩

/-- A cycle whose head fetch failed or whose window is not yet confirmed: nothing but
the head fetch and the sleep. -/
theorem pollCycle_waiting {σ : Type} (l : EVMListener σ) (s : Int) (w : σ)
    (h : ¬ rangeSafe l s w) :
    (pollCycle l (some s) w).trace
        = [ListenerEvent.LatestBlock (l.client w).1,
            ListenerEvent.Sleep l.blockRetryInterval] ∧
      (pollCycle l (some s) w).world = (l.client w).2 ∧
      (pollCycle l (some s) w).startBlock = some s := by
  rcases hc : l.client w with ⟨res, w1⟩
  cases res with
  | error err =>
    rw [pollCycle_error l (some s) w w1 err hc]
    exact ⟨rfl, rfl, rfl⟩
  | ok head =>
    have hn : head - (s + l.blockInterval) < l.blockConfirmations := by
      by_contra hcon
      exact h ((rangeSafe_ok l s w w1 head hc).mpr hcon)
    rw [pollCycle_wait l s w w1 head hc hn]
    exact ⟨rfl, rfl, rfl⟩

theorem leavesBlocksAlone_cycle {σ : Type} (l : EVMListener σ) (hl : leavesBlocksAlone l)
    (s head : Int) (w : σ) (i : Nat) :
    (cycleMeter l s head w).current = s + l.blockInterval ∧
      (cycleHandlerState l s head w i).1 = s := by
  refine ⟨hl.1 _ _ _ _, ?_⟩
  unfold cycleHandlerState
  exact handlerState_keeps _ (fun h hh => hl.2 h (List.mem_of_mem_take hh)) _ _ _

theorem storeCalls_confirmed {σ : Type} (l : EVMListener σ) (s : Int) (w : σ) (head : Int)
    (hh : (l.client w).1 = Except.ok head)
    (hge : head - (s + l.blockInterval) ≥ l.blockConfirmations) :
    storeCalls (pollCycle l (some s) w).trace = [(cycleMeter l s head w).current] ∧
      handlerEvents (pollCycle l (some s) w).trace = cycleHandlerEvents l s head w := by
  rw [(pollCycle_confirmed l s w head hh hge).1]
  constructor
  · simp [storeCalls_append, storeCalls, cycleHandlerEvents_eq, storeCalls_runHandlers]
  · simp [handlerEvents_append, handlerEvents, cycleHandlerEvents_eq,
      handlerEvents_runHandlers]

theorem pollCycle_processed_iff {σ : Type} (l : EVMListener σ) (s : Int) (w : σ) :
    storeCalls (pollCycle l (some s) w).trace ≠ [] ↔ rangeSafe l s w := by
  constructor
  · intro hne
    by_contra hcon
    rw [(pollCycle_waiting l s w hcon).1] at hne
    exact hne rfl
  · rintro ⟨head, hh, hge⟩
    rw [(storeCalls_confirmed l s w head hh hge).1]
    exact List.cons_ne_nil _ _

/-- C1 (range safety). For one poll cycle with a non-nil start block `s`: `StoreBlock`
is called exactly when `LatestBlock` succeeded with a head `h` such that
`h - (s + blockInterval) >= blockConfirmations`. In that case the trace is the head
fetch, the metric, one call per handler and the `StoreBlock` call; the world left by
the cycle is the one the block store returns when applied to the `endBlock` of the loop
and the domain, in the world the handlers left; and the next cycle starts at the value
the handlers left in the start block plus `blockInterval`. When no collaborator writes to a
block number it is handed, the stored block is `s + blockInterval` and the next cycle
starts at `s + blockInterval`. In every other cycle (head fetch error, or difference
below `blockConfirmations`, negative differences included) the trace is the head fetch
and the sleep: no handler is invoked, `StoreBlock` is not called, only the client has
touched the world, and the next cycle starts at `s` again. -/
theorem C1_range_processed_iff_confirmed {σ : Type} (l : EVMListener σ) (s : Int) (w : σ) :
    (storeCalls (pollCycle l (some s) w).trace ≠ [] ↔
        ∃ head : Int, (l.client w).1 = Except.ok head ∧
          head - (s + l.blockInterval) ≥ l.blockConfirmations) ∧
    (∀ head : Int, (l.client w).1 = Except.ok head →
        head - (s + l.blockInterval) ≥ l.blockConfirmations →
      (pollCycle l (some s) w).trace
          = [ListenerEvent.LatestBlock (Except.ok head),
              ListenerEvent.TrackBlockDelta l.domainID head (s + l.blockInterval)]
            ++ cycleHandlerEvents l s head w
            ++ [ListenerEvent.StoreBlock (cycleMeter l s head w).current l.domainID
                  (l.blockstore (cycleMeter l s head w).current l.domainID
                    (cycleHandlerState l s head w l.eventHandlers.length).2).1] ∧
        storeCalls (pollCycle l (some s) w).trace = [(cycleMeter l s head w).current] ∧
        (pollCycle l (some s) w).world
          = (l.blockstore (cycleMeter l s head w).current l.domainID
              (cycleHandlerState l s head w l.eventHandlers.length).2).2 ∧
        (pollCycle l (some s) w).startBlock
          = some ((cycleHandlerState l s head w l.eventHandlers.length).1
              + l.blockInterval) ∧
        (leavesBlocksAlone l →
          (cycleMeter l s head w).current = s + l.blockInterval ∧
            (cycleHandlerState l s head w l.eventHandlers.length).1 = s)) ∧
    (¬ (∃ head : Int, (l.client w).1 = Except.ok head ∧
          head - (s + l.blockInterval) ≥ l.blockConfirmations) →
      (pollCycle l (some s) w).trace
          = [ListenerEvent.LatestBlock (l.client w).1,
              ListenerEvent.Sleep l.blockRetryInterval] ∧
        handlerCalls (pollCycle l (some s) w).trace = [] ∧
        storeCalls (pollCycle l (some s) w).trace = [] ∧
        (pollCycle l (some s) w).world = (l.client w).2 ∧
        (pollCycle l (some s) w).startBlock = some s) := by
  refine ⟨pollCycle_processed_iff l s w, ?_, ?_⟩
  · intro head hh hge
    obtain ⟨h1, h2, h3⟩ := pollCycle_confirmed l s w head hh hge
    exact ⟨h1, (storeCalls_confirmed l s w head hh hge).1, h2, h3,
      fun hl => leavesBlocksAlone_cycle l hl s head w _⟩
  · intro hn
    obtain ⟨h1, h2, h3⟩ := pollCycle_waiting l s w hn
    refine ⟨h1, ?_, ?_, h2, h3⟩
    · rw [h1]; rfl
    · rw [h1]; rfl

/-- C1 at concrete inputs, with collaborators that record what they receive. With
head 120 the window starting at 90 is processed: the block store has received block
100 for domain 1 after the three handlers were called on `(90, 99)`, and the next
cycle starts at 100. The window starting at 110 is not processed (difference 0), nor
the one starting at 115 (difference -5), nor anything after a failed head fetch: no
collaborator has received a call and the start block stays. -/
theorem C1_range_processed_iff_confirmed_witness :
    ((pollCycle (scenarioListener (Except.ok 120)) (some 90) []).world
        = [ListenerEvent.TrackBlockDelta 1 120 100,
           ListenerEvent.HandleEvent 0 90 99 none,
           ListenerEvent.HandleEvent 1 90 99 (some "handler failed"),
           ListenerEvent.HandleEvent 2 90 99 none,
           ListenerEvent.StoreBlock 100 1 (some "store failed")] ∧
      storeCalls (pollCycle (scenarioListener (Except.ok 120)) (some 90) []).trace = [100] ∧
      (pollCycle (scenarioListener (Except.ok 120)) (some 90) []).startBlock = some 100) ∧
    (storeCalls (pollCycle (scenarioListener (Except.ok 120)) (some 110) []).trace = [] ∧
      (pollCycle (scenarioListener (Except.ok 120)) (some 110) []).world = [] ∧
      (pollCycle (scenarioListener (Except.ok 120)) (some 110) []).startBlock = some 110) ∧
    (storeCalls (pollCycle (scenarioListener (Except.ok 120)) (some 115) []).trace = [] ∧
      (pollCycle (scenarioListener (Except.ok 120)) (some 115) []).world = [] ∧
      (pollCycle (scenarioListener (Except.ok 120)) (some 115) []).startBlock = some 115) ∧
    (storeCalls (pollCycle (scenarioListener (Except.error "rpc down")) (some 90) []).trace
        = [] ∧
      (pollCycle (scenarioListener (Except.error "rpc down")) (some 90) []).world = [] ∧
      (pollCycle (scenarioListener (Except.error "rpc down")) (some 90) []).startBlock
        = some 90) := by
  refine ⟨?_, ?_, ?_, ?_⟩
  · have h := (C1_range_processed_iff_confirmed (scenarioListener (Except.ok 120)) 90 []).2.1
      120 rfl (by decide)
    exact ⟨rfl, h.2.1.trans rfl, h.2.2.2.1.trans rfl⟩
  · have h := (C1_range_processed_iff_confirmed (scenarioListener (Except.ok 120)) 110 []).2.2
      (by rintro ⟨head, hh, hge⟩; cases hh; revert hge; decide)
    exact ⟨h.2.2.1, h.2.2.2.1, h.2.2.2.2⟩
  · have h := (C1_range_processed_iff_confirmed (scenarioListener (Except.ok 120)) 115 []).2.2
      (by rintro ⟨head, hh, hge⟩; cases hh; revert hge; decide)
    exact ⟨h.2.2.1, h.2.2.2.1, h.2.2.2.2⟩
  · have h := (C1_range_processed_iff_confirmed
      (scenarioListener (Except.error "rpc down")) 90 []).2.2
      (by rintro ⟨head, hh, _⟩; cases hh)
    exact ⟨h.2.2.1, h.2.2.2.1, h.2.2.2.2⟩

/-! ### Dispatch to the handlers -/

theorem handlerCalls_confirmed_keeps {σ : Type} (l : EVMListener σ) (s : Int) (w : σ)
    (head : Int) (hh : (l.client w).1 = Except.ok head)
    (hge : head - (s + l.blockInterval) ≥ l.blockConfirmations)
    (hl : leavesBlocksAlone l) :
    handlerCalls (pollCycle l (some s) w).trace
        = (List.range l.eventHandlers.length).map
            (fun i => (i, s, s + l.blockInterval - 1)) ∧
      cycleHandlerEvents l s head w
        = List.ofFn (fun i : Fin l.eventHandlers.length =>
            ListenerEvent.HandleEvent i.val s (s + l.blockInterval - 1)
              ((l.eventHandlers.get i) s (s + l.blockInterval - 1)
                (cycleHandlerState l s head w i.val).2).err) := by
  have hcur : (cycleMeter l s head w).current = s + l.blockInterval :=
    (leavesBlocksAlone_cycle l hl s head w 0).1
  have hst : ∀ i : Nat, (cycleHandlerState l s head w i).1 = s :=
    fun i => (leavesBlocksAlone_cycle l hl s head w i).2
  constructor
  · rw [(pollCycle_confirmed l s w head hh hge).1, cycleHandlerEvents_eq,
      handlerCalls_append, handlerCalls_append, handlerCalls_runHandlers_keeps _ hl.2, hcur]
    simp [handlerCalls]
  · simp only [cycleHandlerEvents, hcur, hst]

/-- C8, refuted as stated: a processed cycle from start block 90 with head 600 in which
the first handler overwrites the start block it is handed with 500. The recorded
arguments show that the second and third handler received `(500, 99)`, not
`(90, 99)`. In the same cycle with a metrics sink that overwrites the `endBlock` it is
handed with 777, every handler receives `(90, 776)`. -/
theorem C8_later_handler_sees_overwritten_start :
    storeCalls (pollCycle overwritingListener (some 90) []).trace ≠ [] ∧
      handlerCalls (pollCycle overwritingListener (some 90) []).trace
        = [(0, 90, 99), (1, 500, 99), (2, 500, 99)] ∧
      handlerEvents (pollCycle overwritingListener (some 90) []).world
        = [ListenerEvent.HandleEvent 0 90 99 none,
           ListenerEvent.HandleEvent 1 500 99 (some "handler failed"),
           ListenerEvent.HandleEvent 2 500 99 none] ∧
      handlerCalls (pollCycle overwritingListener (some 90) []).trace
        ≠ (List.range overwritingListener.eventHandlers.length).map
            (fun i => (i, (90 : Int), (90 : Int) + overwritingListener.blockInterval - 1)) ∧
      handlerCalls (handlerEvents (pollCycle meterOverwritingListener (some 90) []).world)
        = [(0, 90, 776), (1, 90, 776), (2, 90, 776)] := by
  refine ⟨by decide, rfl, rfl, by decide, rfl⟩

/-- C8 (dispatch to handlers), amended. In a processed poll cycle with start block `s`
the `HandleEvent` calls are exactly one per registered handler, in registration order:
the `i`-th call is the call of the `i`-th registered handler, on the start block and in
the world left by the handlers before it, whatever errors those returned; nothing is
retried and no later handler is skipped, and the block store is then called in the
world the last handler left. The first handler is handed `s`. When neither the metrics
sink nor a handler writes to the block number it is handed, every handler is called
with the inclusive range `(s, s + blockInterval - 1)`. -/
theorem C8_each_handler_once_in_order {σ : Type} (l : EVMListener σ) (s : Int) (w : σ)
    (hprocessed : storeCalls (pollCycle l (some s) w).trace ≠ []) :
    ∃ head : Int, (l.client w).1 = Except.ok head ∧
      handlerEvents (pollCycle l (some s) w).trace = cycleHandlerEvents l s head w ∧
      (handlerEvents (pollCycle l (some s) w).trace).length = l.eventHandlers.length ∧
      (pollCycle l (some s) w).world
        = (l.blockstore (cycleMeter l s head w).current l.domainID
            (cycleHandlerState l s head w l.eventHandlers.length).2).2 ∧
      (cycleHandlerState l s head w 0).1 = s ∧
      (leavesBlocksAlone l →
        handlerCalls (pollCycle l (some s) w).trace
            = (List.range l.eventHandlers.length).map
                (fun i => (i, s, s + l.blockInterval - 1)) ∧
          handlerEvents (pollCycle l (some s) w).trace
            = List.ofFn (fun i : Fin l.eventHandlers.length =>
                ListenerEvent.HandleEvent i.val s (s + l.blockInterval - 1)
                  ((l.eventHandlers.get i) s (s + l.blockInterval - 1)
                    (cycleHandlerState l s head w i.val).2).err)) := by
  obtain ⟨head, hh, hge⟩ := (pollCycle_processed_iff l s w).mp hprocessed
  have hev := (storeCalls_confirmed l s w head hh hge).2
  refine ⟨head, hh, hev, ?_, (pollCycle_confirmed l s w head hh hge).2.1, rfl, ?_⟩
  · rw [hev]; simp [cycleHandlerEvents]
  · intro hl
    obtain ⟨h1, h2⟩ := handlerCalls_confirmed_keeps l s w head hh hge hl
    exact ⟨h1, hev.trans h2⟩

theorem scenarioListener_leavesBlocksAlone (latest : Except String Int) :
    leavesBlocksAlone (scenarioListener latest) := by
  refine ⟨fun _ _ _ _ => rfl, ?_⟩
  intro handler hmem s e w
  simp only [scenarioListener, recordingListener, List.mem_cons, List.mem_singleton,
    List.not_mem_nil, or_false] at hmem
  rcases hmem with rfl | rfl | rfl <;> rfl

/-- C8 (amended) at a concrete input: three recording handlers that leave the start
block alone, the second of which fails; all three are called once, in order, on
`(90, 99)`, as their own record shows. -/
theorem C8_each_handler_once_in_order_witness :
    handlerCalls (pollCycle (scenarioListener (Except.ok 120)) (some 90) []).trace
      = [(0, 90, 99), (1, 90, 99), (2, 90, 99)] ∧
    handlerEvents (pollCycle (scenarioListener (Except.ok 120)) (some 90) []).trace
      = [ListenerEvent.HandleEvent 0 90 99 none,
         ListenerEvent.HandleEvent 1 90 99 (some "handler failed"),
         ListenerEvent.HandleEvent 2 90 99 none] ∧
    handlerEvents (pollCycle (scenarioListener (Except.ok 120)) (some 90) []).world
      = [ListenerEvent.HandleEvent 0 90 99 none,
         ListenerEvent.HandleEvent 1 90 99 (some "handler failed"),
         ListenerEvent.HandleEvent 2 90 99 none] := by
  obtain ⟨head, hh, _, _, _, _, h⟩ :=
    C8_each_handler_once_in_order (scenarioListener (Except.ok 120)) 90 [] (by decide)
  have hhead : head = 120 := by
    have : (Except.ok 120 : Except String Int) = Except.ok head := hh
    injection this with h'
    exact h'.symm
  subst hhead
  obtain ⟨h1, h2⟩ := h (scenarioListener_leavesBlocksAlone _)
  exact ⟨h1.trans rfl, h2.trans rfl, rfl⟩

/-! ### Many poll cycles -/

theorem ListenToEvents_succ {σ : Type} (l : EVMListener σ) (ctxDone : σ → Bool)
    (cycles : Nat) (startBlock : Option Int) (w : σ) (hd : ¬ ctxDone w = true) :
    ListenToEvents l ctxDone (cycles + 1) startBlock w
      = ⟨(pollCycle l startBlock w).trace
            ++ (ListenToEvents l ctxDone cycles (pollCycle l startBlock w).startBlock
                (pollCycle l startBlock w).world).trace,
          (ListenToEvents l ctxDone cycles (pollCycle l startBlock w).startBlock
                (pollCycle l startBlock w).world).startBlock,
          (ListenToEvents l ctxDone cycles (pollCycle l startBlock w).startBlock
                (pollCycle l startBlock w).world).world⟩ := by
  simp [ListenToEvents, hd]

theorem ListenToEvents_done {σ : Type} (l : EVMListener σ) (ctxDone : σ → Bool)
    (cycles : Nat) (startBlock : Option Int) (w : σ) (hd : ctxDone w = true) :
    ListenToEvents l ctxDone (cycles + 1) startBlock w = ⟨[], startBlock, w⟩ := by
  simp [ListenToEvents, hd]

/-- The handler loop of the listener with the recording block store is the handler
loop of the listener itself; the record is not touched. -/
theorem runHandlers_recordStores {σ : Type} (hs : List (Int → Int → σ → HandlerResult σ))
    (idx : Nat) (s e : Int) (w : σ) (log : List (Int × Nat)) :
    runHandlers
        (hs.map (fun handler s e (v : σ × List (Int × Nat)) =>
          (⟨(handler s e v.1).err, (handler s e v.1).startBlock,
            ((handler s e v.1).world, v.2)⟩ : HandlerResult (σ × List (Int × Nat)))))
        idx s e (w, log)
      = ⟨(runHandlers hs idx s e w).trace, (runHandlers hs idx s e w).startBlock,
          ((runHandlers hs idx s e w).world, log)⟩ := by
  induction hs generalizing idx s w with
  | nil => rfl
  | cons h t ih =>
    simp only [List.map_cons, runHandlers, ih]

/-- One cycle of the listener with the recording block store: the same trace and next
start block as the listener itself, the same world for the collaborators, and the
record grows by exactly the blocks the trace reports as stored, each with the domain of
the listener. -/
theorem pollCycle_recordStores {σ : Type} (l : EVMListener σ) (startBlock : Option Int)
    (w : σ) (log : List (Int × Nat)) :
    pollCycle (recordStores l) startBlock (w, log)
      = ⟨(pollCycle l startBlock w).trace, (pollCycle l startBlock w).startBlock,
          ((pollCycle l startBlock w).world,
            log ++ (storeCalls (pollCycle l startBlock w).trace).map
              (fun b => (b, l.domainID)))⟩ := by
  rcases hc : l.client w with ⟨res, w1⟩
  cases res with
  | error err =>
    simp [pollCycle, recordStores, hc, storeCalls]
  | ok head =>
    cases startBlock with
    | none =>
      by_cases hlt : head - (bigInt64 head + l.blockInterval) < l.blockConfirmations
      · simp [pollCycle, recordStores, hc, hlt, storeCalls]
      · simp [pollCycle, recordStores, hc, hlt, storeCalls, storeCalls_append,
          runHandlers_recordStores, storeCalls_runHandlers]
    | some s =>
      by_cases hlt : head - (s + l.blockInterval) < l.blockConfirmations
      · simp [pollCycle, recordStores, hc, hlt, storeCalls]
      · simp [pollCycle, recordStores, hc, hlt, storeCalls, storeCalls_append,
          runHandlers_recordStores, storeCalls_runHandlers]

/-- Any run of the listener with the recording block store: same trace and next start
block as the listener itself, and the record of what the block store received is
exactly the blocks the trace reports as stored, in order. -/
theorem ListenToEvents_recordStores {σ : Type} (l : EVMListener σ) (ctxDone : σ → Bool)
    (cycles : Nat) (startBlock : Option Int) (w : σ) (log : List (Int × Nat)) :
    ListenToEvents (recordStores l) (fun v => ctxDone v.1) cycles startBlock (w, log)
      = ⟨(ListenToEvents l ctxDone cycles startBlock w).trace,
          (ListenToEvents l ctxDone cycles startBlock w).startBlock,
          ((ListenToEvents l ctxDone cycles startBlock w).world,
            log ++ (storeCalls (ListenToEvents l ctxDone cycles startBlock w).trace).map
              (fun b => (b, l.domainID)))⟩ := by
  induction cycles generalizing startBlock w log with
  | zero => simp [ListenToEvents, storeCalls]
  | succ n ih =>
    by_cases hd : ctxDone w = true
    · rw [ListenToEvents_done l ctxDone n startBlock w hd,
        ListenToEvents_done (recordStores l) (fun v => ctxDone v.1) n startBlock (w, log) hd]
      simp [storeCalls]
    · rw [ListenToEvents_succ l ctxDone n startBlock w hd,
        ListenToEvents_succ (recordStores l) (fun v => ctxDone v.1) n startBlock (w, log) hd,
        pollCycle_recordStores, ih]
      simp [storeCalls_append]

/-- When no collaborator writes to a block number it is handed, the stored blocks of a run
from `s0` are `s0 + blockInterval`, `s0 + 2 * blockInterval`, ... and the run ends with
the start block that many intervals after `s0`. -/
theorem listen_stores {σ : Type} (l : EVMListener σ) (hl : leavesBlocksAlone l)
    (ctxDone : σ → Bool) :
    ∀ (cycles : Nat) (s0 : Int) (w : σ), ∃ P : Nat,
      storeCalls (ListenToEvents l ctxDone cycles (some s0) w).trace
          = (List.range P).map (fun k : Nat => s0 + ((k : Int) + 1) * l.blockInterval) ∧
        (ListenToEvents l ctxDone cycles (some s0) w).startBlock
          = some (s0 + (P : Int) * l.blockInterval) := by
  intro cycles
  induction cycles with
  | zero => intro s0 w; exact ⟨0, by simp [ListenToEvents, storeCalls]⟩
  | succ n ih =>
    intro s0 w
    by_cases hd : ctxDone w = true
    · exact ⟨0, by simp [ListenToEvents, hd, storeCalls]⟩
    · rw [ListenToEvents_succ l ctxDone n (some s0) w hd]
      by_cases hs : rangeSafe l s0 w
      · obtain ⟨head, hh, hge⟩ := hs
        obtain ⟨_, _, hnext⟩ := pollCycle_confirmed l s0 w head hh hge
        have hst := (storeCalls_confirmed l s0 w head hh hge).1
        obtain ⟨hcur, hstart⟩ := leavesBlocksAlone_cycle l hl s0 head w l.eventHandlers.length
        rw [hcur] at hst
        rw [hstart] at hnext
        obtain ⟨P, hP, hQ⟩ := ih (s0 + l.blockInterval) (pollCycle l (some s0) w).world
        refine ⟨P + 1, ?_, ?_⟩
        · show storeCalls (_ ++ _) = _
          rw [storeCalls_append, hst, hnext, hP, List.range_succ_eq_map, List.map_cons,
            List.map_map, List.singleton_append]
          congr 1
          · simp
          · apply List.map_congr_left
            intro k _
            simp only [Function.comp, Nat.cast_succ]
            ring
        · show (ListenToEvents l ctxDone n _ _).startBlock = _
          rw [hnext, hQ]
          congr 1
          push_cast
          ring
      · obtain ⟨htr, _, hnext⟩ := pollCycle_waiting l s0 w hs
        have hst : storeCalls (pollCycle l (some s0) w).trace = [] := by rw [htr]; rfl
        obtain ⟨P, hP, hQ⟩ := ih s0 (pollCycle l (some s0) w).world
        refine ⟨P, ?_, ?_⟩
        · show storeCalls (_ ++ _) = _
          rw [storeCalls_append, hst, hnext, hP, List.nil_append]
        · show (ListenToEvents l ctxDone n _ _).startBlock = _
          rw [hnext, hQ]

/-- C2, refuted as stated: two processed cycles from start block 90 with head 600 and
`blockInterval = 10`, in which the first handler overwrites the start block it is
handed with 500. The block store receives 100 and then 520, not `90 + 2 * 10`, and the
next cycle starts at 510. With a metrics sink that overwrites the `endBlock` it is
handed with 777, the block store receives 777 in the first cycle, not `90 + 10`. -/
theorem C2_second_store_after_overwrite :
    storeCalls (ListenToEvents overwritingListener (fun _ => false) 2 (some 90) []).trace
        = [100, 520] ∧
      storeCalls (ListenToEvents overwritingListener (fun _ => false) 2 (some 90) []).world
        = [100, 520] ∧
      (storeCalls
          (ListenToEvents overwritingListener (fun _ => false) 2 (some 90) []).trace)[2 - 1]?
        ≠ some (90 + ((2 : Nat) : Int) * overwritingListener.blockInterval) ∧
      (ListenToEvents overwritingListener (fun _ => false) 2 (some 90) []).startBlock
        = some 510 ∧
      storeCalls
          (ListenToEvents meterOverwritingListener (fun _ => false) 1 (some 90) []).world
        = [777] := by
  refine ⟨rfl, rfl, by decide, rfl, rfl⟩

/-- C2 (cursor), amended. Run any number of poll cycles from a non-nil start block
`s0`, with any head values, handler errors and `StoreBlock` errors, with collaborators
that do not write to the block numbers handed to them. For every `N >= 1` up to the
number of cycles that passed the head fetch and the confirmation check, the `N`-th
`StoreBlock` call reported by the trace is for `s0 + N * blockInterval`, the `N`-th
call the block store receives has the arguments `s0 + N * blockInterval` and the
domain of the listener, and when exactly `N` such cycles have run, the next cycle
starts at `s0 + N * blockInterval`. -/
theorem C2_cursor_after_N_cycles {σ : Type} (l : EVMListener σ) (ctxDone : σ → Bool)
    (cycles : Nat) (s0 : Int) (w : σ) (hl : leavesBlocksAlone l) (N : Nat) (h1 : 1 ≤ N)
    (hN : N ≤ (storeCalls (ListenToEvents l ctxDone cycles (some s0) w).trace).length) :
    (storeCalls (ListenToEvents l ctxDone cycles (some s0) w).trace)[N - 1]?
        = some (s0 + (N : Int) * l.blockInterval) ∧
      (ListenToEvents (recordStores l) (fun v => ctxDone v.1) cycles (some s0)
          (w, [])).world.2[N - 1]?
        = some (s0 + (N : Int) * l.blockInterval, l.domainID) ∧
      (ListenToEvents (recordStores l) (fun v => ctxDone v.1) cycles (some s0)
          (w, [])).world.2.length
        = (storeCalls (ListenToEvents l ctxDone cycles (some s0) w).trace).length ∧
      (N = (storeCalls (ListenToEvents l ctxDone cycles (some s0) w).trace).length →
        (ListenToEvents l ctxDone cycles (some s0) w).startBlock
          = some (s0 + (N : Int) * l.blockInterval)) := by
  obtain ⟨P, hP, hQ⟩ := listen_stores l hl ctxDone cycles s0 w
  have hlen : (storeCalls (ListenToEvents l ctxDone cycles (some s0) w).trace).length = P := by
    rw [hP]; simp
  rw [hlen] at hN
  have hcast : ((N - 1 : Nat) : Int) = (N : Int) - 1 := by omega
  have hval : (storeCalls (ListenToEvents l ctxDone cycles (some s0) w).trace)[N - 1]?
      = some (s0 + (N : Int) * l.blockInterval) := by
    rw [hP, List.getElem?_map, List.getElem?_range (by omega)]
    simp only [Option.map_some']
    congr 2
    rw [hcast]; ring
  refine ⟨hval, ?_, ?_, ?_⟩
  · rw [ListenToEvents_recordStores]
    simp only [List.nil_append, List.getElem?_map, hval, Option.map_some']
  · rw [ListenToEvents_recordStores]
    simp
  · intro hEq
    rw [hlen] at hEq
    rw [hQ, hEq]

/-- C2 (amended) at the scenario of the specification: `s0 = 90`, `blockInterval = 10`,
`blockConfirmations = 5`, head `120`, nobody writes to a block number; a handler and
`StoreBlock` both fail. The first processed cycle stores `100`, as the trace, the
recording block store and the record of the scenario itself show, and the next window
starts at `100`; the second stores `110`. -/
theorem C2_cursor_after_N_cycles_witness :
    ((storeCalls (ListenToEvents (scenarioListener (Except.ok 120)) (fun _ => false) 1
          (some 90) []).trace)[1 - 1]? = some (90 + ((1 : Nat) : Int) * 10) ∧
      (ListenToEvents (recordStores (scenarioListener (Except.ok 120))) (fun _ => false) 1
          (some 90) ([], [])).world.2[1 - 1]? = some (90 + ((1 : Nat) : Int) * 10, 1) ∧
      storeCalls (ListenToEvents (scenarioListener (Except.ok 120)) (fun _ => false) 1
          (some 90) []).world = [100] ∧
      (ListenToEvents (scenarioListener (Except.ok 120)) (fun _ => false) 1
          (some 90) []).startBlock = some (90 + ((1 : Nat) : Int) * 10)) ∧
    (storeCalls (ListenToEvents (scenarioListener (Except.ok 120)) (fun _ => false) 5
          (some 90) []).trace)[2 - 1]? = some (90 + ((2 : Nat) : Int) * 10) := by
  have h := C2_cursor_after_N_cycles (scenarioListener (Except.ok 120)) (fun _ => false) 1
    90 [] (scenarioListener_leavesBlocksAlone _) 1 (by decide) (by decide)
  have h2 := C2_cursor_after_N_cycles (scenarioListener (Except.ok 120)) (fun _ => false) 5
    90 [] (scenarioListener_leavesBlocksAlone _) 2 (by decide) (by decide)
  exact ⟨⟨h.1, h.2.1, rfl, h.2.2.2 (by decide)⟩, h2.1⟩

/-! ### Traces of `route` -/

theorem writeCalls_append (a b : List RouteEvent) :
    writeCalls (a ++ b) = writeCalls a ++ writeCalls b := by
  induction a with
  | nil => rfl
  | cons x t ih => cases x <;> simp [writeCalls, ih]

theorem executionErrorMetrics_append (a b : List RouteEvent) :
    executionErrorMetrics (a ++ b) = executionErrorMetrics a ++ executionErrorMetrics b := by
  induction a with
  | nil => rfl
  | cons x t ih => cases x <;> simp [executionErrorMetrics, ih]

theorem successLatencyMetrics_append (a b : List RouteEvent) :
    successLatencyMetrics (a ++ b) = successLatencyMetrics a ++ successLatencyMetrics b := by
  induction a with
  | nil => rfl
  | cons x t ih => cases x <;> simp [successLatencyMetrics, ih]

theorem writeCalls_map_error (ms : List Message) :
    writeCalls (ms.map RouteEvent.TrackExecutionError) = [] := by
  induction ms with
  | nil => rfl
  | cons m t ih => simpa [writeCalls] using ih

theorem writeCalls_map_success (ms : List Message) :
    writeCalls (ms.map RouteEvent.TrackSuccessfulExecutionLatency) = [] := by
  induction ms with
  | nil => rfl
  | cons m t ih => simpa [writeCalls] using ih

theorem executionErrorMetrics_map_error (ms : List Message) :
    executionErrorMetrics (ms.map RouteEvent.TrackExecutionError) = ms := by
  induction ms with
  | nil => rfl
  | cons m t ih => simpa [executionErrorMetrics] using ih

theorem executionErrorMetrics_map_success (ms : List Message) :
    executionErrorMetrics (ms.map RouteEvent.TrackSuccessfulExecutionLatency) = [] := by
  induction ms with
  | nil => rfl
  | cons m t ih => simpa [executionErrorMetrics] using ih

theorem successLatencyMetrics_map_success (ms : List Message) :
    successLatencyMetrics (ms.map RouteEvent.TrackSuccessfulExecutionLatency) = ms := by
  induction ms with
  | nil => rfl
  | cons m t ih => simpa [successLatencyMetrics] using ih

theorem successLatencyMetrics_map_error (ms : List Message) :
    successLatencyMetrics (ms.map RouteEvent.TrackExecutionError) = [] := by
  induction ms with
  | nil => rfl
  | cons m t ih => simpa [successLatencyMetrics] using ih

theorem vetoObserved_nil : ¬ vetoObserved [] := by
  rintro ⟨i, m, e, h⟩
  cases h

theorem vetoObserved_append (a b : List RouteEvent) :
    vetoObserved (a ++ b) ↔ vetoObserved a ∨ vetoObserved b := by
  unfold vetoObserved
  constructor
  · rintro ⟨i, m, e, h⟩
    rcases List.mem_append.mp h with h | h
    · exact Or.inl ⟨i, m, e, h⟩
    · exact Or.inr ⟨i, m, e, h⟩
  · rintro (⟨i, m, e, h⟩ | ⟨i, m, e, h⟩)
    · exact ⟨i, m, e, List.mem_append_left _ h⟩
    · exact ⟨i, m, e, List.mem_append_right _ h⟩

theorem vetoObserved_cons (x : RouteEvent) (t : List RouteEvent) :
    vetoObserved (x :: t) ↔ vetoObserved [x] ∨ vetoObserved t :=
  vetoObserved_append [x] t

theorem not_vetoObserved_deposit (m : Message) :
    ¬ vetoObserved [RouteEvent.TrackDepositMessage m] := by
  rintro ⟨i, m', e, h⟩
  simp at h

theorem not_vetoObserved_accepted (i : Nat) (m : Message) :
    ¬ vetoObserved [RouteEvent.Processor i m none] := by
  rintro ⟨i', m', e, h⟩
  simp at h

theorem not_vetoObserved_write (d : Nat) (ms : List Message) (e : GoError) :
    ¬ vetoObserved [RouteEvent.Write d ms e] := by
  rintro ⟨i', m', e', h⟩
  simp at h

theorem not_vetoObserved_map_error (ms : List Message) :
    ¬ vetoObserved (ms.map RouteEvent.TrackExecutionError) := by
  rintro ⟨i', m', e', h⟩
  simp at h

theorem not_vetoObserved_map_success (ms : List Message) :
    ¬ vetoObserved (ms.map RouteEvent.TrackSuccessfulExecutionLatency) := by
  rintro ⟨i', m', e', h⟩
  simp at h

theorem runProcessors_cons_some {σ : Type} (mp : Message → σ → GoError × σ)
    (rest : List (Message → σ → GoError × σ)) (idx : Nat) (m : Message) (w : σ)
    (err : String) (h : (mp m w).1 = some err) :
    runProcessors (mp :: rest) idx m w
      = ([RouteEvent.Processor idx m (some err)], some err, (mp m w).2) := by
  simp only [runProcessors, h]

theorem runProcessors_cons_none {σ : Type} (mp : Message → σ → GoError × σ)
    (rest : List (Message → σ → GoError × σ)) (idx : Nat) (m : Message) (w : σ)
    (h : (mp m w).1 = none) :
    runProcessors (mp :: rest) idx m w
      = (RouteEvent.Processor idx m none :: (runProcessors rest (idx + 1) m (mp m w).2).1,
          (runProcessors rest (idx + 1) m (mp m w).2).2.1,
          (runProcessors rest (idx + 1) m (mp m w).2).2.2) := by
  simp only [runProcessors, h]

/-- The processor loop records nothing but processor calls. -/
theorem runProcessors_trace {σ : Type} (mps : List (Message → σ → GoError × σ)) (idx : Nat)
    (m : Message) (w : σ) :
    writeCalls (runProcessors mps idx m w).1 = [] ∧
      executionErrorMetrics (runProcessors mps idx m w).1 = [] ∧
      successLatencyMetrics (runProcessors mps idx m w).1 = [] := by
  induction mps generalizing idx w with
  | nil => exact ⟨rfl, rfl, rfl⟩
  | cons mp rest ih =>
    cases h : (mp m w).1 with
    | some err =>
      rw [runProcessors_cons_some mp rest idx m w err h]
      exact ⟨rfl, rfl, rfl⟩
    | none =>
      rw [runProcessors_cons_none mp rest idx m w h]
      exact ih (idx + 1) (mp m w).2

/-- When the processor loop reports nil, no call returned an error and every
processor accepted the message in some world. -/
theorem runProcessors_none {σ : Type} (mps : List (Message → σ → GoError × σ)) (idx : Nat)
    (m : Message) (w : σ) (h : (runProcessors mps idx m w).2.1 = none) :
    ¬ vetoObserved (runProcessors mps idx m w).1 ∧
      ∀ mp ∈ mps, ∃ w' : σ, (mp m w').1 = none := by
  induction mps generalizing idx w with
  | nil => exact ⟨vetoObserved_nil, fun mp hmp => absurd hmp (List.not_mem_nil mp)⟩
  | cons mp rest ih =>
    cases hr : (mp m w).1 with
    | some err =>
      rw [runProcessors_cons_some mp rest idx m w err hr] at h
      cases h
    | none =>
      rw [runProcessors_cons_none mp rest idx m w hr] at h ⊢
      obtain ⟨h1, h2⟩ := ih (idx + 1) (mp m w).2 h
      refine ⟨?_, ?_⟩
      · rw [vetoObserved_cons]
        rintro (hv | hv)
        · exact not_vetoObserved_accepted idx m hv
        · exact h1 hv
      · intro mp' hmp'
        rcases List.mem_cons.mp hmp' with rfl | hmem
        · exact ⟨w, hr⟩
        · exact h2 mp' hmem

/-- When the processor loop reports an error, the failing call is its last call and
the only one that returned an error. -/
theorem runProcessors_some {σ : Type} (mps : List (Message → σ → GoError × σ)) (idx : Nat)
    (m : Message) (w : σ) (err : String) (h : (runProcessors mps idx m w).2.1 = some err) :
    ∃ (before : List RouteEvent) (i : Nat),
      (runProcessors mps idx m w).1 = before ++ [RouteEvent.Processor i m (some err)] ∧
        ¬ vetoObserved before := by
  induction mps generalizing idx w with
  | nil => simp [runProcessors] at h
  | cons mp rest ih =>
    cases hr : (mp m w).1 with
    | some err' =>
      rw [runProcessors_cons_some mp rest idx m w err' hr] at h ⊢
      cases h
      exact ⟨[], idx, rfl, vetoObserved_nil⟩
    | none =>
      rw [runProcessors_cons_none mp rest idx m w hr] at h ⊢
      obtain ⟨before, i, h1, h2⟩ := ih (idx + 1) (mp m w).2 h
      refine ⟨RouteEvent.Processor idx m none :: before, i, ?_, ?_⟩
      · show _ :: _ = _
        rw [h1]; rfl
      · rw [vetoObserved_cons]
        rintro (hv | hv)
        · exact not_vetoObserved_accepted idx m hv
        · exact h2 hv

theorem processMessages_cons_some {σ : Type} (mps : List (Message → σ → GoError × σ))
    (m : Message) (ms : List Message) (w : σ) (err : String)
    (h : (runProcessors mps 0 m w).2.1 = some err) :
    processMessages mps (m :: ms) w
      = (RouteEvent.TrackDepositMessage m :: (runProcessors mps 0 m w).1, some err,
          (runProcessors mps 0 m w).2.2) := by
  simp only [processMessages, h]

theorem processMessages_cons_none {σ : Type} (mps : List (Message → σ → GoError × σ))
    (m : Message) (ms : List Message) (w : σ)
    (h : (runProcessors mps 0 m w).2.1 = none) :
    processMessages mps (m :: ms) w
      = (RouteEvent.TrackDepositMessage m :: (runProcessors mps 0 m w).1
            ++ (processMessages mps ms (runProcessors mps 0 m w).2.2).1,
          (processMessages mps ms (runProcessors mps 0 m w).2.2).2.1,
          (processMessages mps ms (runProcessors mps 0 m w).2.2).2.2) := by
  simp only [processMessages, h]

/-- The message loop records nothing but deposit metrics and processor calls. -/
theorem processMessages_trace {σ : Type} (mps : List (Message → σ → GoError × σ))
    (ms : List Message) (w : σ) :
    writeCalls (processMessages mps ms w).1 = [] ∧
      executionErrorMetrics (processMessages mps ms w).1 = [] ∧
      successLatencyMetrics (processMessages mps ms w).1 = [] := by
  induction ms generalizing w with
  | nil => exact ⟨rfl, rfl, rfl⟩
  | cons m rest ih =>
    obtain ⟨p1, p2, p3⟩ := runProcessors_trace mps 0 m w
    cases h : (runProcessors mps 0 m w).2.1 with
    | some err =>
      rw [processMessages_cons_some mps m rest w err h]
      exact ⟨p1, p2, p3⟩
    | none =>
      rw [processMessages_cons_none mps m rest w h]
      obtain ⟨q1, q2, q3⟩ := ih (runProcessors mps 0 m w).2.2
      refine ⟨?_, ?_, ?_⟩
      · show writeCalls (_ :: (_ ++ _)) = _
        simp only [writeCalls, writeCalls_append, p1, q1, List.append_nil]
      · show executionErrorMetrics (_ :: (_ ++ _)) = _
        simp only [executionErrorMetrics, executionErrorMetrics_append, p2, q2,
          List.append_nil]
      · show successLatencyMetrics (_ :: (_ ++ _)) = _
        simp only [successLatencyMetrics, successLatencyMetrics_append, p3, q3,
          List.append_nil]

/-- When the message loop completes, no processor call returned an error, and every
processor accepted every message of the batch in some world. -/
theorem processMessages_none {σ : Type} (mps : List (Message → σ → GoError × σ))
    (ms : List Message) (w : σ) (h : (processMessages mps ms w).2.1 = none) :
    ¬ vetoObserved (processMessages mps ms w).1 ∧
      ∀ m ∈ ms, ∀ mp ∈ mps, ∃ w' : σ, (mp m w').1 = none := by
  induction ms generalizing w with
  | nil => exact ⟨vetoObserved_nil, fun m hm => absurd hm (List.not_mem_nil m)⟩
  | cons m rest ih =>
    cases hr : (runProcessors mps 0 m w).2.1 with
    | some err =>
      rw [processMessages_cons_some mps m rest w err hr] at h
      cases h
    | none =>
      rw [processMessages_cons_none mps m rest w hr] at h ⊢
      obtain ⟨a1, a2⟩ := runProcessors_none mps 0 m w hr
      obtain ⟨b1, b2⟩ := ih (runProcessors mps 0 m w).2.2 h
      refine ⟨?_, ?_⟩
      · show ¬ vetoObserved (_ :: (_ ++ _))
        rw [vetoObserved_cons, vetoObserved_append]
        rintro (hv | hv | hv)
        · exact not_vetoObserved_deposit m hv
        · exact a1 hv
        · exact b1 hv
      · intro m' hm'
        rcases List.mem_cons.mp hm' with rfl | hmem
        · exact a2
        · exact b2 m' hmem

/-- When the message loop is left by a veto, the failing processor call is the last
entry of its trace and the only call that returned an error. -/
theorem processMessages_some {σ : Type} (mps : List (Message → σ → GoError × σ))
    (ms : List Message) (w : σ) (err : String)
    (h : (processMessages mps ms w).2.1 = some err) :
    ∃ (before : List RouteEvent) (i : Nat) (m : Message), m ∈ ms ∧
      (processMessages mps ms w).1 = before ++ [RouteEvent.Processor i m (some err)] ∧
        ¬ vetoObserved before := by
  induction ms generalizing w with
  | nil => simp [processMessages] at h
  | cons m rest ih =>
    cases hr : (runProcessors mps 0 m w).2.1 with
    | some err' =>
      rw [processMessages_cons_some mps m rest w err' hr] at h ⊢
      have he : err' = err := by simpa using h
      subst he
      obtain ⟨before, i, h1, h2⟩ := runProcessors_some mps 0 m w err' hr
      refine ⟨RouteEvent.TrackDepositMessage m :: before, i, m, List.mem_cons_self _ _, ?_, ?_⟩
      · show _ :: _ = _
        rw [h1]; rfl
      · rw [vetoObserved_cons]
        rintro (hv | hv)
        · exact not_vetoObserved_deposit m hv
        · exact h2 hv
    | none =>
      rw [processMessages_cons_none mps m rest w hr] at h ⊢
      obtain ⟨a1, _⟩ := runProcessors_none mps 0 m w hr
      obtain ⟨before, i, m', hm', h1, h2⟩ := ih (runProcessors mps 0 m w).2.2 h
      refine ⟨RouteEvent.TrackDepositMessage m :: (runProcessors mps 0 m w).1 ++ before,
        i, m', List.mem_cons_of_mem _ hm', ?_, ?_⟩
      · show _ :: (_ ++ _) = _
        rw [h1]; simp
      · show ¬ vetoObserved (_ :: (_ ++ _))
        rw [vetoObserved_cons, vetoObserved_append]
        rintro (hv | hv | hv)
        · exact not_vetoObserved_deposit m hv
        · exact a1 hv
        · exact h2 hv

theorem runProcessors_neverVetoed {σ : Type} (mps : List (Message → σ → GoError × σ))
    (idx : Nat) (m : Message) (w : σ) (h : neverVetoed mps m) :
    (runProcessors mps idx m w).2.1 = none := by
  induction mps generalizing idx w with
  | nil => rfl
  | cons mp rest ih =>
    have hmp : (mp m w).1 = none := h mp (List.mem_cons_self _ _) w
    rw [runProcessors_cons_none mp rest idx m w hmp]
    exact ih (idx + 1) (mp m w).2 (fun mp' hmp' => h mp' (List.mem_cons_of_mem _ hmp'))

/-- When every processor returns nil for every message of the batch, the message
loop completes. -/
theorem processMessages_neverVetoed {σ : Type} (mps : List (Message → σ → GoError × σ))
    (ms : List Message) (w : σ) (h : ∀ m ∈ ms, neverVetoed mps m) :
    (processMessages mps ms w).2.1 = none := by
  induction ms generalizing w with
  | nil => rfl
  | cons m rest ih =>
    have hm := runProcessors_neverVetoed mps 0 m w (h m (List.mem_cons_self _ _))
    rw [processMessages_cons_none mps m rest w hm]
    exact ih (runProcessors mps 0 m w).2.2 (fun m' hm' => h m' (List.mem_cons_of_mem _ hm'))

/-- A processor that rejects some message of the batch in every world makes the
message loop end in a veto. -/
theorem processMessages_alwaysVetoes {σ : Type} (mps : List (Message → σ → GoError × σ))
    (ms : List Message) (w : σ)
    (h : ∃ m ∈ ms, ∃ mp ∈ mps, alwaysVetoes mp m) :
    (processMessages mps ms w).2.1 ≠ none := by
  intro hnone
  obtain ⟨m, hm, mp, hmp, hv⟩ := h
  obtain ⟨w', hw'⟩ := (processMessages_none mps ms w hnone).2 m hm mp hmp
  exact hv w' hw'

theorem vetoObserved_iff_hasVeto (t : List RouteEvent) :
    vetoObserved t ↔ hasVeto t = true := by
  induction t with
  | nil => simp [hasVeto, vetoObserved_nil]
  | cons x rest ih =>
    rw [vetoObserved_cons, ih]
    cases x with
    | Processor i m e =>
      cases e with
      | none => simp [hasVeto, not_vetoObserved_accepted]
      | some err =>
        have : vetoObserved [RouteEvent.Processor i m (some err)] :=
          ⟨i, m, err, List.mem_singleton.mpr rfl⟩
        simp [hasVeto, this]
    | TrackDepositMessage m => simp [hasVeto, not_vetoObserved_deposit]
    | Write d ms e => simp [hasVeto, not_vetoObserved_write]
    | TrackExecutionError m =>
      have := not_vetoObserved_map_error [m]
      simp only [List.map_cons, List.map_nil] at this
      simp [hasVeto, this]
    | TrackSuccessfulExecutionLatency m =>
      have := not_vetoObserved_map_success [m]
      simp only [List.map_cons, List.map_nil] at this
      simp [hasVeto, this]

/-! ### The branches of `route` -/

theorem route_nil {σ : Type} (r : Relayer σ) (w : σ) :
    route r [] w = ⟨[], RouteOutcome.indexOutOfRange, w⟩ := rfl

theorem route_noResolver {σ : Type} (r : Relayer σ) (m0 : Message) (rest : List Message)
    (w : σ) (h : r.registryGet m0.Destination = none) :
    route r (m0 :: rest) w = ⟨[], RouteOutcome.noResolver, w⟩ := by
  simp only [route, h]

theorem route_vetoed {σ : Type} (r : Relayer σ) (m0 : Message) (rest : List Message)
    (w : σ) (destChain : RelayedChain σ)
    (hreg : r.registryGet m0.Destination = some destChain) (err : String)
    (hp : (processMessages r.messageProcessors (m0 :: rest) w).2.1 = some err) :
    route r (m0 :: rest) w
      = ⟨(processMessages r.messageProcessors (m0 :: rest) w).1, RouteOutcome.vetoed,
          (processMessages r.messageProcessors (m0 :: rest) w).2.2⟩ := by
  simp only [route, hreg, hp]

theorem route_writeFailed {σ : Type} (r : Relayer σ) (m0 : Message) (rest : List Message)
    (w : σ) (destChain : RelayedChain σ)
    (hreg : r.registryGet m0.Destination = some destChain)
    (hp : (processMessages r.messageProcessors (m0 :: rest) w).2.1 = none) (err : String)
    (hw : (destChain.Write (m0 :: rest)
            (processMessages r.messageProcessors (m0 :: rest) w).2.2).1 = some err) :
    route r (m0 :: rest) w
      = ⟨(processMessages r.messageProcessors (m0 :: rest) w).1
            ++ [RouteEvent.Write destChain.DomainID (m0 :: rest) (some err)]
            ++ (m0 :: rest).map RouteEvent.TrackExecutionError,
          RouteOutcome.writeFailed,
          (destChain.Write (m0 :: rest)
            (processMessages r.messageProcessors (m0 :: rest) w).2.2).2⟩ := by
  simp only [route, hreg, hp, hw]

theorem route_routed {σ : Type} (r : Relayer σ) (m0 : Message) (rest : List Message)
    (w : σ) (destChain : RelayedChain σ)
    (hreg : r.registryGet m0.Destination = some destChain)
    (hp : (processMessages r.messageProcessors (m0 :: rest) w).2.1 = none)
    (hw : (destChain.Write (m0 :: rest)
            (processMessages r.messageProcessors (m0 :: rest) w).2.2).1 = none) :
    route r (m0 :: rest) w
      = ⟨(processMessages r.messageProcessors (m0 :: rest) w).1
            ++ [RouteEvent.Write destChain.DomainID (m0 :: rest) none]
            ++ (m0 :: rest).map RouteEvent.TrackSuccessfulExecutionLatency,
          RouteOutcome.routed,
          (destChain.Write (m0 :: rest)
            (processMessages r.messageProcessors (m0 :: rest) w).2.2).2⟩ := by
  simp only [route, hreg, hp, hw]

/-- With a registered destination, a veto is observed in the trace of `route` exactly
when the message loop was left by a processor error. -/
theorem route_vetoObserved_iff {σ : Type} (r : Relayer σ) (m0 : Message)
    (rest : List Message) (w : σ) (destChain : RelayedChain σ)
    (hreg : r.registryGet m0.Destination = some destChain) :
    vetoObserved (route r (m0 :: rest) w).trace ↔
      (processMessages r.messageProcessors (m0 :: rest) w).2.1 ≠ none := by
  cases hp : (processMessages r.messageProcessors (m0 :: rest) w).2.1 with
  | some err =>
    rw [route_vetoed r m0 rest w destChain hreg err hp]
    obtain ⟨before, i, m, _, h1, _⟩ :=
      processMessages_some r.messageProcessors (m0 :: rest) w err hp
    constructor
    · intro _; simp
    · intro _
      exact ⟨i, m, err, by rw [h1]; simp⟩
  | none =>
    have hnv := (processMessages_none r.messageProcessors (m0 :: rest) w hp).1
    constructor
    · intro hv
      exfalso
      cases hw : (destChain.Write (m0 :: rest)
            (processMessages r.messageProcessors (m0 :: rest) w).2.2).1 with
      | some err =>
        rw [route_writeFailed r m0 rest w destChain hreg hp err hw] at hv
        rcases (vetoObserved_append _ _).mp hv with hv | hv
        · rcases (vetoObserved_append _ _).mp hv with hv | hv
          · exact hnv hv
          · exact not_vetoObserved_write _ _ _ hv
        · exact not_vetoObserved_map_error _ hv
      | none =>
        rw [route_routed r m0 rest w destChain hreg hp hw] at hv
        rcases (vetoObserved_append _ _).mp hv with hv | hv
        · rcases (vetoObserved_append _ _).mp hv with hv | hv
          · exact hnv hv
          · exact not_vetoObserved_write _ _ _ hv
        · exact not_vetoObserved_map_success _ hv
    · intro h; exact absurd rfl h

/-- A vetoed batch: no `Write`, no execution metric, and the failing processor call
closes the trace. -/
theorem route_trace_of_veto {σ : Type} (r : Relayer σ) (m0 : Message)
    (rest : List Message) (w : σ) (destChain : RelayedChain σ)
    (hreg : r.registryGet m0.Destination = some destChain)
    (hv : vetoObserved (route r (m0 :: rest) w).trace) :
    writeCalls (route r (m0 :: rest) w).trace = [] ∧
      executionErrorMetrics (route r (m0 :: rest) w).trace = [] ∧
      successLatencyMetrics (route r (m0 :: rest) w).trace = [] ∧
      ∃ (before : List RouteEvent) (i : Nat) (m : Message) (err : String),
        m ∈ m0 :: rest ∧
        (route r (m0 :: rest) w).trace = before ++ [RouteEvent.Processor i m (some err)] ∧
        ¬ vetoObserved before := by
  have hp := (route_vetoObserved_iff r m0 rest w destChain hreg).mp hv
  cases hq : (processMessages r.messageProcessors (m0 :: rest) w).2.1 with
  | none => exact absurd hq hp
  | some err =>
    rw [route_vetoed r m0 rest w destChain hreg err hq]
    obtain ⟨t1, t2, t3⟩ := processMessages_trace r.messageProcessors (m0 :: rest) w
    obtain ⟨before, i, m, hm, h1, h2⟩ :=
      processMessages_some r.messageProcessors (m0 :: rest) w err hq
    exact ⟨t1, t2, t3, before, i, m, err, hm, h1, h2⟩

/-- A batch that no processor call rejected: `Write` is called once with the whole
batch, and the metrics follow what `Write` returned. -/
theorem route_trace_of_no_veto {σ : Type} (r : Relayer σ) (m0 : Message)
    (rest : List Message) (w : σ) (destChain : RelayedChain σ)
    (hreg : r.registryGet m0.Destination = some destChain)
    (hnv : ¬ vetoObserved (route r (m0 :: rest) w).trace) :
    ∃ err : GoError,
      err = (destChain.Write (m0 :: rest)
              (processMessages r.messageProcessors (m0 :: rest) w).2.2).1 ∧
      writeCalls (route r (m0 :: rest) w).trace = [(destChain.DomainID, m0 :: rest, err)] ∧
      (err = none →
        successLatencyMetrics (route r (m0 :: rest) w).trace = m0 :: rest ∧
          executionErrorMetrics (route r (m0 :: rest) w).trace = []) ∧
      (err ≠ none →
        executionErrorMetrics (route r (m0 :: rest) w).trace = m0 :: rest ∧
          successLatencyMetrics (route r (m0 :: rest) w).trace = []) := by
  have hp : (processMessages r.messageProcessors (m0 :: rest) w).2.1 = none := by
    by_contra hcon
    exact hnv ((route_vetoObserved_iff r m0 rest w destChain hreg).mpr hcon)
  obtain ⟨t1, t2, t3⟩ := processMessages_trace r.messageProcessors (m0 :: rest) w
  cases hw : (destChain.Write (m0 :: rest)
        (processMessages r.messageProcessors (m0 :: rest) w).2.2).1 with
  | some err =>
    rw [route_writeFailed r m0 rest w destChain hreg hp err hw]
    refine ⟨some err, rfl, ?_, ?_, ?_⟩
    · simp only [writeCalls_append, t1, writeCalls, writeCalls_map_error]
      rfl
    · intro h; cases h
    · intro _
      simp only [executionErrorMetrics_append, successLatencyMetrics_append, t2, t3,
        executionErrorMetrics, successLatencyMetrics, executionErrorMetrics_map_error,
        successLatencyMetrics_map_error]
      exact ⟨rfl, rfl⟩
  | none =>
    rw [route_routed r m0 rest w destChain hreg hp hw]
    refine ⟨none, rfl, ?_, ?_, ?_⟩
    · simp only [writeCalls_append, t1, writeCalls, writeCalls_map_success]
      rfl
    · intro _
      simp only [executionErrorMetrics_append, successLatencyMetrics_append, t2, t3,
        executionErrorMetrics, successLatencyMetrics, executionErrorMetrics_map_success,
        successLatencyMetrics_map_success]
      exact ⟨rfl, rfl⟩
    · intro h; exact absurd rfl h

/-- A batch that no processor call rejected: the world `route` leaves is the one the
destination chain returns from `Write`, applied to the whole batch in the world the
processors left, and the `Write` entry of the trace carries what that call returned. -/
theorem route_write_applied {σ : Type} (r : Relayer σ) (m0 : Message)
    (rest : List Message) (w : σ) (destChain : RelayedChain σ)
    (hreg : r.registryGet m0.Destination = some destChain)
    (hnv : ¬ vetoObserved (route r (m0 :: rest) w).trace) :
    writeCalls (route r (m0 :: rest) w).trace
        = [(destChain.DomainID, m0 :: rest,
            (destChain.Write (m0 :: rest)
              (processMessages r.messageProcessors (m0 :: rest) w).2.2).1)] ∧
      (route r (m0 :: rest) w).world
        = (destChain.Write (m0 :: rest)
            (processMessages r.messageProcessors (m0 :: rest) w).2.2).2 := by
  have hp : (processMessages r.messageProcessors (m0 :: rest) w).2.1 = none := by
    by_contra hcon
    exact hnv ((route_vetoObserved_iff r m0 rest w destChain hreg).mpr hcon)
  obtain ⟨err, herr, hw, _, _⟩ := route_trace_of_no_veto r m0 rest w destChain hreg hnv
  refine ⟨by rw [hw, herr], ?_⟩
  cases hw' : (destChain.Write (m0 :: rest)
        (processMessages r.messageProcessors (m0 :: rest) w).2.2).1 with
  | some e => rw [route_writeFailed r m0 rest w destChain hreg hp e hw']
  | none => rw [route_routed r m0 rest w destChain hreg hp hw']

/-- A vetoed batch: the world `route` leaves is the one the processors left; no
`Write` has been applied to it. -/
theorem route_world_of_veto {σ : Type} (r : Relayer σ) (m0 : Message)
    (rest : List Message) (w : σ) (destChain : RelayedChain σ)
    (hreg : r.registryGet m0.Destination = some destChain)
    (hv : vetoObserved (route r (m0 :: rest) w).trace) :
    (route r (m0 :: rest) w).world
      = (processMessages r.messageProcessors (m0 :: rest) w).2.2 := by
  have hp := (route_vetoObserved_iff r m0 rest w destChain hreg).mp hv
  cases hq : (processMessages r.messageProcessors (m0 :: rest) w).2.1 with
  | none => exact absurd hq hp
  | some err => rw [route_vetoed r m0 rest w destChain hreg err hq]

/-! ### The registry built by `Start` -/

theorem registryGet_addRelayedChain {σ : Type} (r : Relayer σ) (c : RelayedChain σ)
    (d : Nat) :
    (addRelayedChain r c).registryGet d
      = if d = c.DomainID then some c else r.registryGet d := by
  unfold addRelayedChain Relayer.registryGet
  cases r.registry <;> rfl

/-- After the registration loop of `Start`, a domain is not a key of the registry
exactly when it was not a key before and no started chain reports it as its domain. -/
theorem registryGet_startChains_none {σ : Type} (cs : List (RelayedChain σ))
    (r : Relayer σ) (d : Nat) :
    (startChains r cs).1.registryGet d = none ↔
      r.registryGet d = none ∧ ∀ c ∈ cs, c.DomainID ≠ d := by
  induction cs generalizing r with
  | nil => simp [startChains]
  | cons c rest ih =>
    simp only [startChains]
    rw [ih (addRelayedChain r c), registryGet_addRelayedChain]
    by_cases hd : d = c.DomainID
    · simp [hd]
    · have hd' : ¬ c.DomainID = d := fun h => hd h.symm
      simp [hd, hd']

/-! ### Routing theorems -/

/-- C3 (processor veto). For a non-empty batch whose destination is registered: if a
processor returns an error for a message of the batch (a processor call of the run
returned an error, or some processor rejects some message of the batch in every
world), then `route` calls no `Write`, records neither an execution-error nor a
success-latency metric, and the failing processor call is the last entry of the trace
and the only processor call that returned an error: no processor runs after it. -/
theorem C3_processor_veto_blocks_write {σ : Type} (r : Relayer σ) (m0 : Message)
    (rest : List Message) (w : σ) (destChain : RelayedChain σ)
    (hreg : r.registryGet m0.Destination = some destChain)
    (hveto : vetoObserved (route r (m0 :: rest) w).trace ∨
      ∃ m ∈ m0 :: rest, ∃ mp ∈ r.messageProcessors, alwaysVetoes mp m) :
    writeCalls (route r (m0 :: rest) w).trace = [] ∧
      executionErrorMetrics (route r (m0 :: rest) w).trace = [] ∧
      successLatencyMetrics (route r (m0 :: rest) w).trace = [] ∧
      (route r (m0 :: rest) w).outcome = RouteOutcome.vetoed ∧
      ∃ (before : List RouteEvent) (i : Nat) (m : Message) (err : String),
        m ∈ m0 :: rest ∧
        (route r (m0 :: rest) w).trace = before ++ [RouteEvent.Processor i m (some err)] ∧
        ¬ vetoObserved before := by
  have hp : (processMessages r.messageProcessors (m0 :: rest) w).2.1 ≠ none := by
    rcases hveto with hv | hv
    · exact (route_vetoObserved_iff r m0 rest w destChain hreg).mp hv
    · exact processMessages_alwaysVetoes r.messageProcessors (m0 :: rest) w hv
  have hv := (route_vetoObserved_iff r m0 rest w destChain hreg).mpr hp
  obtain ⟨h1, h2, h3, h4⟩ := route_trace_of_veto r m0 rest w destChain hreg hv
  refine ⟨h1, h2, h3, ?_, h4⟩
  cases hq : (processMessages r.messageProcessors (m0 :: rest) w).2.1 with
  | none => exact absurd hq hp
  | some err => rw [route_vetoed r m0 rest w destChain hreg err hq]

/-- C3 at a concrete input: processors `[acceptAll, rejectNonce7]`, batch
`[msgA, msgB]` to the registered domain 2. The second processor rejects `msgB`; the
trace ends with that call and holds no `Write`. -/
theorem C3_processor_veto_blocks_write_witness :
    writeCalls (route (scenarioRelayer [acceptAll, rejectNonce7] none)
        (msgA :: [msgB]) 0).trace = [] ∧
    (route (scenarioRelayer [acceptAll, rejectNonce7] none) (msgA :: [msgB]) 0).trace
      = [RouteEvent.TrackDepositMessage msgA,
         RouteEvent.Processor 0 msgA none,
         RouteEvent.Processor 1 msgA none,
         RouteEvent.TrackDepositMessage msgB,
         RouteEvent.Processor 0 msgB none,
         RouteEvent.Processor 1 msgB (some "nonce 7 rejected")] := by
  have h := C3_processor_veto_blocks_write (scenarioRelayer [acceptAll, rejectNonce7] none)
    msgA [msgB] 0 (scenarioChain 2 none) rfl
    (Or.inr ⟨msgB, by simp,
      rejectNonce7, List.mem_cons_of_mem _ (List.mem_singleton.mpr rfl),
      fun w => by simp [rejectNonce7, msgB]⟩)
  exact ⟨h.1, rfl⟩

/-- C4 (no resolver). For a non-empty batch whose first message's destination is not
a key of the registry, `route` makes no call at all: no `Write` on any chain, no
message processor, no deposit, execution-error or success-latency metric; the world
of the collaborators is untouched. -/
theorem C4_unregistered_destination_dropped {σ : Type} (r : Relayer σ) (m0 : Message)
    (rest : List Message) (w : σ) (h : r.registryGet m0.Destination = none) :
    (route r (m0 :: rest) w).trace = [] ∧
      writeCalls (route r (m0 :: rest) w).trace = [] ∧
      processorCalls (route r (m0 :: rest) w).trace = [] ∧
      depositMetrics (route r (m0 :: rest) w).trace = [] ∧
      executionErrorMetrics (route r (m0 :: rest) w).trace = [] ∧
      successLatencyMetrics (route r (m0 :: rest) w).trace = [] ∧
      (route r (m0 :: rest) w).outcome = RouteOutcome.noResolver ∧
      (route r (m0 :: rest) w).world = w := by
  rw [route_noResolver r m0 rest w h]
  exact ⟨rfl, rfl, rfl, rfl, rfl, rfl, rfl, rfl⟩

/-- C4 at a concrete input: a relayer started with chains for the domains 1 and 2
receives a batch whose first message goes to domain 3. -/
theorem C4_unregistered_destination_dropped_witness :
    (scenarioRelayer [acceptAll] none).registryGet msgC.Destination = none ∧
    (route (scenarioRelayer [acceptAll] none) (msgC :: [msgA]) 0).trace = [] ∧
    (route (scenarioRelayer [acceptAll] none) (msgC :: [msgA]) 0).world = 0 := by
  have hreg : (scenarioRelayer [acceptAll] none).registryGet msgC.Destination = none :=
    rfl
  have h := C4_unregistered_destination_dropped (scenarioRelayer [acceptAll] none)
    msgC [msgA] 0 hreg
  exact ⟨hreg, h.1, h.2.2.2.2.2.2.2⟩

/-- C5, refuted as stated: with the single processor `rejectNonce7` and the batch
`[msgA, msgB]` to the registered domain 2, every processor returns nil for `msgA`,
yet `msgA` is in no batch passed to `Write`, because its sibling `msgB` is vetoed. -/
theorem C5_sibling_of_vetoed_not_delivered :
    (scenarioRelayer [rejectNonce7] none).registryGet msgA.Destination
        = some (scenarioChain 2 none) ∧
      msgA ∈ [msgA, msgB] ∧
      neverVetoed (scenarioRelayer [rejectNonce7] none).messageProcessors msgA ∧
      writeCalls (route (scenarioRelayer [rejectNonce7] none) [msgA, msgB] 0).trace = [] ∧
      ¬ deliversEveryUnvetoed (scenarioRelayer [rejectNonce7] none) [msgA, msgB] 0 := by
  have hnv : neverVetoed (scenarioRelayer [rejectNonce7] none).messageProcessors msgA := by
    intro mp hmp w
    have : mp = rejectNonce7 := by
      simpa [scenarioRelayer, Start, startChains, addRelayedChain, NewRelayer] using hmp
    subst this
    simp [rejectNonce7, msgA]
  have hw : writeCalls (route (scenarioRelayer [rejectNonce7] none) [msgA, msgB] 0).trace
      = [] := rfl
  refine ⟨rfl, by simp, hnv, hw, ?_⟩
  intro hall
  obtain ⟨call, hcall, _⟩ := hall msgA (by simp) hnv
  rw [hw] at hcall
  cases hcall

/-- C5, amended. For a non-empty batch whose destination is registered: when no
processor call returns an error, `Write` of the destination chain is applied exactly
once, to the whole batch, in the world the processors left: the trace holds that one
`Write` with what the call returned, the world `route` leaves is the one that call
returned, and every message of the batch is in the batch passed to `Write`; this is
the case whenever every processor returns nil for every message of the batch. When a
processor call returns an error, `Write` is not applied: the trace holds no `Write`,
the world is the one the processors left, and no message of the batch is delivered. -/
theorem C5_batch_delivered_whole_or_not_at_all {σ : Type} (r : Relayer σ) (m0 : Message)
    (rest : List Message) (w : σ) (destChain : RelayedChain σ)
    (hreg : r.registryGet m0.Destination = some destChain) :
    (¬ vetoObserved (route r (m0 :: rest) w).trace →
      writeCalls (route r (m0 :: rest) w).trace
          = [(destChain.DomainID, m0 :: rest,
              (destChain.Write (m0 :: rest)
                (processMessages r.messageProcessors (m0 :: rest) w).2.2).1)] ∧
        (route r (m0 :: rest) w).world
          = (destChain.Write (m0 :: rest)
              (processMessages r.messageProcessors (m0 :: rest) w).2.2).2 ∧
        ∀ m ∈ m0 :: rest,
          ∃ call ∈ writeCalls (route r (m0 :: rest) w).trace, m ∈ call.2.1) ∧
    ((∀ m ∈ m0 :: rest, neverVetoed r.messageProcessors m) →
      ¬ vetoObserved (route r (m0 :: rest) w).trace) ∧
    (vetoObserved (route r (m0 :: rest) w).trace →
      writeCalls (route r (m0 :: rest) w).trace = [] ∧
        (route r (m0 :: rest) w).world
          = (processMessages r.messageProcessors (m0 :: rest) w).2.2) := by
  refine ⟨?_, ?_, ?_⟩
  · intro hnv
    obtain ⟨hw, hworld⟩ := route_write_applied r m0 rest w destChain hreg hnv
    refine ⟨hw, hworld, ?_⟩
    intro m hm
    exact ⟨_, by rw [hw]; exact List.mem_singleton.mpr rfl, hm⟩
  · intro hall hv
    exact (route_vetoObserved_iff r m0 rest w destChain hreg).mp hv
      (processMessages_neverVetoed r.messageProcessors (m0 :: rest) w hall)
  · intro hv
    exact ⟨(route_trace_of_veto r m0 rest w destChain hreg hv).1,
      route_world_of_veto r m0 rest w destChain hreg hv⟩

/-- C5 (amended) at a concrete input, with destination chains that record the batches
they receive. With the processor `passAll` the chain of domain 2 has received the
batch `[msgA, msgB]`, once and whole; with `blockNonce7` it has received nothing. -/
theorem C5_batch_delivered_whole_or_not_at_all_witness :
    (writeCalls (route (recordingRelayer [passAll]) (msgA :: [msgB]) []).trace
        = [(2, [msgA, msgB], none)] ∧
      (route (recordingRelayer [passAll]) (msgA :: [msgB]) []).world = [[msgA, msgB]]) ∧
    (writeCalls (route (recordingRelayer [blockNonce7]) (msgA :: [msgB]) []).trace = [] ∧
      (route (recordingRelayer [blockNonce7]) (msgA :: [msgB]) []).world = []) := by
  have h1 := (C5_batch_delivered_whole_or_not_at_all (recordingRelayer [passAll])
    msgA [msgB] [] (recordingChain 2) rfl).1
    ((vetoObserved_iff_hasVeto _).not.mpr (by decide))
  have h2 := (C5_batch_delivered_whole_or_not_at_all (recordingRelayer [blockNonce7])
    msgA [msgB] [] (recordingChain 2) rfl).2.2
    ((vetoObserved_iff_hasVeto _).mpr (by decide))
  exact ⟨⟨h1.1.trans rfl, rfl⟩, ⟨h2.1, rfl⟩⟩

/-- C7 (metrics follow `Write`). For a non-empty batch with a registered destination
in whose routing no processor call returned an error, `Write` is called exactly once
with the whole batch; if it returned nil, `TrackSuccessfulExecutionLatency` is
recorded exactly once per message of the batch, in order, and `TrackExecutionError`
never; if it returned an error, `TrackExecutionError` is recorded exactly once per
message and `TrackSuccessfulExecutionLatency` never. When the destination is an
`EVMChain`, whatever its executor and whatever the scheduler does with the launched
goroutines, the success-latency metric is recorded for every message and the
execution-error metric for none. -/
theorem C7_metrics_follow_write_result {σ : Type} (r : Relayer σ) (m0 : Message)
    (rest : List Message) (w : σ) (destChain : RelayedChain σ)
    (hreg : r.registryGet m0.Destination = some destChain)
    (hnoveto : ¬ vetoObserved (route r (m0 :: rest) w).trace) :
    (∃ err : GoError,
      writeCalls (route r (m0 :: rest) w).trace = [(destChain.DomainID, m0 :: rest, err)] ∧
      (err = none →
        successLatencyMetrics (route r (m0 :: rest) w).trace = m0 :: rest ∧
          executionErrorMetrics (route r (m0 :: rest) w).trace = []) ∧
      (err ≠ none →
        executionErrorMetrics (route r (m0 :: rest) w).trace = m0 :: rest ∧
          successLatencyMetrics (route r (m0 :: rest) w).trace = [])) ∧
    (∀ (c : EVMChain σ) (spawn : List (Goroutine σ) → σ → σ),
      destChain = c.asRelayedChain spawn →
        successLatencyMetrics (route r (m0 :: rest) w).trace = m0 :: rest ∧
          executionErrorMetrics (route r (m0 :: rest) w).trace = []) := by
  obtain ⟨err, herr, hw, hok, hfail⟩ :=
    route_trace_of_no_veto r m0 rest w destChain hreg hnoveto
  refine ⟨⟨err, hw, hok, hfail⟩, ?_⟩
  intro c spawn hc
  apply hok
  rw [herr, hc]
  rfl

/-- C7 at the scenario of the specification: a batch of two messages to domain 2,
whose chain is an `EVMChain` with an executor that always fails. Two success-latency
records, no execution-error record; both goroutines ran and each logged a failure
(the world after `route` lists both messages). With a destination whose `Write`
returns an error the two execution-error records appear instead. -/
theorem C7_metrics_follow_write_result_witness :
    (successLatencyMetrics (route scenarioEVMRelayer (msgA :: [msgB]) []).trace
        = [msgA, msgB] ∧
      executionErrorMetrics (route scenarioEVMRelayer (msgA :: [msgB]) []).trace = [] ∧
      (route scenarioEVMRelayer (msgA :: [msgB]) []).world = [msgA, msgB] ∧
      (failingEVMChain.writeTask msgA []).failureLogged = true ∧
      (failingEVMChain.writeTask msgB []).failureLogged = true) ∧
    (executionErrorMetrics
        (route (scenarioRelayer [acceptAll] (some "write failed")) (msgA :: [msgB]) 0).trace
        = [msgA, msgB] ∧
      successLatencyMetrics
        (route (scenarioRelayer [acceptAll] (some "write failed")) (msgA :: [msgB]) 0).trace
        = []) := by
  have h1 := (C7_metrics_follow_write_result scenarioEVMRelayer msgA [msgB] []
    (failingEVMChain.asRelayedChain runAndLog) rfl
    ((vetoObserved_iff_hasVeto _).not.mpr (by decide))).2 failingEVMChain runAndLog rfl
  have h2 := (C7_metrics_follow_write_result (scenarioRelayer [acceptAll] (some "write failed"))
    msgA [msgB] 0 (scenarioChain 2 (some "write failed")) rfl
    ((vetoObserved_iff_hasVeto _).not.mpr (by decide))).1
  refine ⟨⟨h1.1, h1.2, rfl, rfl, rfl⟩, ?_⟩
  obtain ⟨err, hw, _, hfail⟩ := h2
  apply hfail
  intro hnone
  rw [hnone] at hw
  revert hw
  decide

/-- C9 (indexing `msgs[0]`). For every non-empty batch `route` ends by drop, veto or
write (never by the index fault); for the empty batch it ends with the
index-out-of-range fault before any metric, processor or `Write` call, the world
untouched; and `Start` hands every batch it receives before cancellation to `route`,
in order and unfiltered, the empty batch included. -/
theorem C9_route_indexes_first_message {σ : Type} (r : Relayer σ) :
    (∀ (m0 : Message) (rest : List Message) (w : σ),
      (route r (m0 :: rest) w).outcome = RouteOutcome.noResolver ∨
      (route r (m0 :: rest) w).outcome = RouteOutcome.vetoed ∨
      (route r (m0 :: rest) w).outcome = RouteOutcome.writeFailed ∨
      (route r (m0 :: rest) w).outcome = RouteOutcome.routed) ∧
    (∀ w : σ, (route r [] w).outcome = RouteOutcome.indexOutOfRange ∧
      (route r [] w).trace = [] ∧ (route r [] w).world = w) ∧
    (∀ (batches : List (List Message)) (after : List StartEvent),
      (Start r (batches.map StartEvent.recv ++ after)).routed
        = batches ++ receiveLoop after) ∧
    (Start r [StartEvent.recv [], StartEvent.ctxDone]).routed = [[]] := by
  refine ⟨?_, ?_, ?_, rfl⟩
  · intro m0 rest w
    cases hreg : r.registryGet m0.Destination with
    | none => rw [route_noResolver r m0 rest w hreg]; exact Or.inl rfl
    | some destChain =>
      cases hp : (processMessages r.messageProcessors (m0 :: rest) w).2.1 with
      | some err =>
        rw [route_vetoed r m0 rest w destChain hreg err hp]; exact Or.inr (Or.inl rfl)
      | none =>
        cases hw : (destChain.Write (m0 :: rest)
              (processMessages r.messageProcessors (m0 :: rest) w).2.2).1 with
        | some err =>
          rw [route_writeFailed r m0 rest w destChain hreg hp err hw]
          exact Or.inr (Or.inr (Or.inl rfl))
        | none =>
          rw [route_routed r m0 rest w destChain hreg hp hw]
          exact Or.inr (Or.inr (Or.inr rfl))
  · intro w
    exact ⟨rfl, rfl, rfl⟩
  · intro batches after
    show receiveLoop _ = _
    induction batches with
    | nil => rfl
    | cons b t ih => simp [receiveLoop, ih]

/-! ### `EVMChain.Write` -/

theorem foldl_launch {σ : Type} (c : EVMChain σ) (ms : List Message)
    (launched : List (Goroutine σ)) :
    ms.foldl (fun launched m => launched ++ [⟨m, c.writeTask m⟩]) launched
      = launched ++ ms.map (fun m => ⟨m, c.writeTask m⟩) := by
  induction ms generalizing launched with
  | nil => simp
  | cons m t ih => simp [List.foldl, ih]

/-- C6 (`Write` never fails). For every batch, the empty one included, and every
executor, `EVMChain.Write` returns nil and launches exactly one goroutine per message
of the batch, in order, started with that message; the goroutine calls `Execute`
exactly once, with that message, and logs a failure exactly when `Execute` returned an
error. What `Execute` returns changes nothing in what `Write` returned. -/
theorem C6_write_always_nil {σ : Type} (c : EVMChain σ) (msg : List Message) :
    (c.Write msg).err = none ∧
      (c.Write msg).launched = msg.map (fun m => ⟨m, c.writeTask m⟩) ∧
      (c.Write msg).launched.map (fun g => g.msg) = msg ∧
      (∀ (m : Message) (w : σ), (c.writeTask m w).executed = [m]) ∧
      (∀ (m : Message) (w : σ),
        (c.writeTask m w).failureLogged = true ↔ (c.writer m w).1 ≠ none) := by
  have hl : (c.Write msg).launched = msg.map (fun m => ⟨m, c.writeTask m⟩) := by
    show msg.foldl _ [] = _
    rw [foldl_launch]; rfl
  refine ⟨rfl, hl, ?_, ?_, ?_⟩
  · rw [hl, List.map_map]
    exact List.map_id msg
  · intro m w
    cases h : (c.writer m w).1 <;> simp [EVMChain.writeTask, h]
  · intro m w
    cases h : (c.writer m w).1 <;> simp [EVMChain.writeTask, h]

/-- C6 at a concrete input: an executor that fails on every message; `Write` returns
nil for the batch `[msgA, msgB]` and for the empty batch. -/
theorem C6_write_always_nil_witness :
    (failingEVMChain.Write [msgA, msgB]).err = none ∧
      (failingEVMChain.Write [msgA, msgB]).launched.map (fun g => g.msg) = [msgA, msgB] ∧
      (failingEVMChain.Write []).err = none ∧
      (failingEVMChain.Write []).launched.map (fun g => g.msg) = [] ∧
      (failingEVMChain.writer msgA []).1 = some "execution reverted" ∧
      (failingEVMChain.writer msgB []).1 = some "execution reverted" :=
  ⟨(C6_write_always_nil failingEVMChain [msgA, msgB]).1,
    (C6_write_always_nil failingEVMChain [msgA, msgB]).2.2.1,
    (C6_write_always_nil failingEVMChain []).1,
    (C6_write_always_nil failingEVMChain []).2.2.1, rfl, rfl⟩

/-! ### The deposit handlers -/

theorem HandleErc20DepositedEvent_ok (evm : TransferTypes)
    (newCaller : String → Except String (DepositRecordCaller ERC20DepositRecord))
    (sourceID destId nonce : Nat) (addr : String) (m : DefaultEVMMessage)
    (h : HandleErc20DepositedEvent evm newCaller sourceID destId nonce addr = Except.ok m) :
    m.Source = sourceID ∧ m.Destination = destId ∧ m.DepositNonce = nonce ∧
      m.Type_ = evm.FungibleTransfer ∧ m.Payload.length = 2 := by
  unfold HandleErc20DepositedEvent at h
  cases hc : newCaller addr with
  | error e => simp [hc] at h
  | ok contract =>
    cases hr : contract nonce destId with
    | error e => simp [hc, hr] at h
    | ok record =>
      simp only [hc, hr, Except.ok.injEq] at h
      subst h
      exact ⟨rfl, rfl, rfl, rfl, rfl⟩

theorem HandleErc721DepositedEvent_ok (evm : TransferTypes)
    (newCaller : String → Except String (DepositRecordCaller ERC721DepositRecord))
    (sourceID destId nonce : Nat) (addr : String) (m : DefaultEVMMessage)
    (h : HandleErc721DepositedEvent evm newCaller sourceID destId nonce addr = Except.ok m) :
    m.Source = sourceID ∧ m.Destination = destId ∧ m.DepositNonce = nonce ∧
      m.Type_ = evm.NonFungibleTransfer ∧ m.Payload.length = 3 := by
  unfold HandleErc721DepositedEvent at h
  cases hc : newCaller addr with
  | error e => simp [hc] at h
  | ok contract =>
    cases hr : contract nonce destId with
    | error e => simp [hc, hr] at h
    | ok record =>
      simp only [hc, hr, Except.ok.injEq] at h
      subst h
      exact ⟨rfl, rfl, rfl, rfl, rfl⟩

theorem HandleGenericDepositedEvent_ok (evm : TransferTypes)
    (newCaller : String → Except String (DepositRecordCaller GenericDepositRecord))
    (sourceID destId nonce : Nat) (addr : String) (m : DefaultEVMMessage)
    (h : HandleGenericDepositedEvent evm newCaller sourceID destId nonce addr = Except.ok m) :
    m.Source = sourceID ∧ m.Destination = destId ∧ m.DepositNonce = nonce ∧
      m.Type_ = evm.FungibleTransfer ∧ m.Payload.length = 1 := by
  unfold HandleGenericDepositedEvent at h
  cases hc : newCaller addr with
  | error e => simp [hc] at h
  | ok contract =>
    cases hr : contract nonce destId with
    | error e => simp [hc, hr] at h
    | ok record =>
      simp only [hc, hr, Except.ok.injEq] at h
      subst h
      exact ⟨rfl, rfl, rfl, rfl, rfl⟩

/-- C10, the code at the failing input. Whatever the values of the type tags, a
message returned by `HandleGenericDepositedEvent` carries the tag
`evm.FungibleTransfer`, the same tag as a message returned by
`HandleErc20DepositedEvent`, while the ERC20 payload has two elements and the generic
payload has one: two returned messages with the same `Type` and payloads of different
shape. Source, destination and nonce are the ones passed in. -/
theorem C10_generic_deposit_carries_fungible_tag (evm : TransferTypes)
    (newErc20 : String → Except String (DepositRecordCaller ERC20DepositRecord))
    (newGeneric : String → Except String (DepositRecordCaller GenericDepositRecord))
    (sourceID destId nonce : Nat) (addr : String) (m20 mGen : DefaultEVMMessage)
    (h20 : HandleErc20DepositedEvent evm newErc20 sourceID destId nonce addr = Except.ok m20)
    (hGen : HandleGenericDepositedEvent evm newGeneric sourceID destId nonce addr
      = Except.ok mGen) :
    mGen.Type_ = m20.Type_ ∧
      m20.Payload.length = 2 ∧ mGen.Payload.length = 1 ∧
      m20.Payload.length ≠ mGen.Payload.length ∧
      (m20.Source = sourceID ∧ m20.Destination = destId ∧ m20.DepositNonce = nonce) ∧
      (mGen.Source = sourceID ∧ mGen.Destination = destId ∧ mGen.DepositNonce = nonce) := by
  obtain ⟨a1, a2, a3, a4, a5⟩ :=
    HandleErc20DepositedEvent_ok evm newErc20 sourceID destId nonce addr m20 h20
  obtain ⟨b1, b2, b3, b4, b5⟩ :=
    HandleGenericDepositedEvent_ok evm newGeneric sourceID destId nonce addr mGen hGen
  refine ⟨by rw [a4, b4], a5, b5, by rw [a5, b5]; decide, ⟨a1, a2, a3⟩, ⟨b1, b2, b3⟩⟩

/-- C10 at a concrete input: deposits with nonce 5 from domain 1 to domain 2, both
record lookups succeed. The two returned messages carry the same tag
`"FungibleTransfer"`; one payload has two elements, the other one. -/
theorem C10_generic_deposit_carries_fungible_tag_witness :
    HandleErc20DepositedEvent scenarioTypes scenarioErc20Caller 1 2 5 "0x3167"
        = Except.ok scenarioErc20Message ∧
      HandleGenericDepositedEvent scenarioTypes scenarioGenericCaller 1 2 5 "0x3167"
        = Except.ok scenarioGenericMessage ∧
      scenarioGenericMessage.Type_ = scenarioErc20Message.Type_ ∧
      scenarioErc20Message.Payload.length = 2 ∧
      scenarioGenericMessage.Payload.length = 1 := by
  have h20 : HandleErc20DepositedEvent scenarioTypes scenarioErc20Caller 1 2 5 "0x3167"
      = Except.ok scenarioErc20Message := by
    simp [HandleErc20DepositedEvent, scenarioErc20Caller, scenarioTypes, bigBytes,
      scenarioErc20Message]
  have hGen : HandleGenericDepositedEvent scenarioTypes scenarioGenericCaller 1 2 5 "0x3167"
      = Except.ok scenarioGenericMessage := rfl
  have h := C10_generic_deposit_carries_fungible_tag scenarioTypes scenarioErc20Caller
    scenarioGenericCaller 1 2 5 "0x3167" scenarioErc20Message scenarioGenericMessage h20 hGen
  exact ⟨h20, hGen, h.1, h.2.1, h.2.2.1⟩
